import Mathlib

/-!
Shallow embedding of the Fitbit incremental synchronization engine of
`open-humans-data-processing` (`sources/fitbit.py`, `models.py`,
`base_source.py`), together with proofs about its caching, rate-limit,
identity-reset and reload logic.

Modelling conventions:

* Instants of time are civil date-times at hour granularity; durations are
  integers counting hours.  `arrow.Arrow.ceil` returns the last microsecond
  of a period; here it returns the last *hour* of the period, which shifts
  period-end comparisons by strictly less than one hour and is irrelevant to
  the day/week-scale windows (`CACHE_MIN`, `CACHE_MAX`, `STORAGE_MIN`) the
  code compares against.
* The remote HTTP layer (`requests_respectful`) is an oracle
  `remote : Nat → String → FetchOutcome` mapping the index of the remote
  call and the request key to an outcome; a local-rate-limiter rejection,
  an HTTP status, and a parsed JSON body are all outcomes.
* The SQLAlchemy-backed cache table is a list of `CacheItem` rows; a row is
  appended by `db.session.add` and queried by
  `filter_by(key).order_by(request_time.desc()).first()`.
* Python exceptions are an explicit error type threaded through results;
  each function returns its (cache, log) state even when it raises, since
  committed cache rows survive a raised exception.
* A ghost `log` records every call of `fitbit_query` (resource name, period
  key, target date, and whether the remote API was consulted); it exists
  only so that theorems can speak about which queries a run performed.
-/

/-! ## Calendar arithmetic (the fragment of `arrow` the code uses) -/

def isLeap (y : Nat) : Bool :=
  y % 4 == 0 && (y % 100 != 0 || y % 400 == 0)

def monthLen (y m : Nat) : Nat :=
  if m = 2 then (if isLeap y then 29 else 28)
  else if m = 4 ∨ m = 6 ∨ m = 9 ∨ m = 11 then 30
  else 31

/-- Days from 0001-01-01 to the start of year `y` (proleptic Gregorian). -/
def daysBeforeYear (y : Nat) : Nat :=
  365 * (y - 1) + (y - 1) / 4 - (y - 1) / 100 + (y - 1) / 400

/-- Days from the start of year `y` to the start of its month `m`. -/
def daysBeforeMonth (y m : Nat) : Nat :=
  (List.range' 1 (m - 1)).foldl (fun a mm => a + monthLen y mm) 0

/-- A civil date-time at hour granularity. -/
structure DateTime where
  year : Nat
  month : Nat
  day : Nat
  hour : Nat
deriving DecidableEq, Repr

/-- Hours since 0001-01-01T00. -/
def DateTime.toHours (t : DateTime) : Int :=
  24 * ((daysBeforeYear t.year + daysBeforeMonth t.year t.month + (t.day - 1) : Nat) : Int)
    + (t.hour : Int)

def floorYear (t : DateTime) : DateTime := ⟨t.year, 1, 1, 0⟩
def ceilYear (t : DateTime) : DateTime := ⟨t.year, 12, 31, 23⟩
def floorMonth (t : DateTime) : DateTime := ⟨t.year, t.month, 1, 0⟩
def ceilMonth (t : DateTime) : DateTime := ⟨t.year, t.month, monthLen t.year t.month, 23⟩

/-- `CACHE_MAX = timedelta(weeks=1)`, in hours. -/
def CACHE_MAX : Int := 168
/-- `CACHE_MIN = timedelta(days=1)`, in hours. -/
def CACHE_MIN : Int := 24
/-- `STORAGE_MIN = timedelta(weeks=4)`, in hours. -/
def STORAGE_MIN : Int := 672

/-! ## String formatting helpers (`.format` calls on dates and URL paths) -/

def natDigits (n : Nat) : List Char :=
  (Nat.toDigits 10 n)

def pad2 (n : Nat) : String :=
  if n < 10 then "0" ++ ⟨natDigits n⟩ else ⟨natDigits n⟩

def pad4 (n : Nat) : String :=
  if n < 10 then "000" ++ ⟨natDigits n⟩
  else if n < 100 then "00" ++ ⟨natDigits n⟩
  else if n < 1000 then "0" ++ ⟨natDigits n⟩
  else ⟨natDigits n⟩

/-- `arrow_date.format('YYYY-MM-DD')`. -/
def fmtYMD (t : DateTime) : String :=
  pad4 t.year ++ "-" ++ pad2 t.month ++ "-" ++ pad2 t.day

/-- `year_date.format('YYYY')`, the yearly period key. -/
def yearKey (y : Nat) : String := pad4 y

/-- `month_date.format('YYYY-MM')`, the monthly period key. -/
def monthKey (y m : Nat) : String := pad4 y ++ "-" ++ pad2 m

/-- One simultaneous-substitution step of Python `str.format`, on char
lists, with fuel (the fuel is always instantiated to the list length, which
suffices because every step consumes at least one character). -/
def replaceAux (pat rep : List Char) : Nat → List Char → List Char
  | 0, s => s
  | _ + 1, [] => []
  | fuel + 1, c :: rest =>
    if (c :: rest).take pat.length = pat ∧ pat ≠ [] then
      rep ++ replaceAux pat rep fuel ((c :: rest).drop pat.length)
    else
      c :: replaceAux pat rep fuel rest

def replaceAll (s pat rep : String) : String :=
  ⟨replaceAux pat.data rep.data s.data.length s.data⟩

/-- `path.format(**parameters)` for the three placeholder names the Fitbit
URL templates use. -/
def formatPath (template userId startDate endDate : String) : String :=
  replaceAll (replaceAll (replaceAll template "{user_id}" userId)
    "{start_date}" startDate) "{end_date}" endDate

/-! ## Data model: API responses, stored profile, merged output -/

/-- The fields of `query_result['user']` that `get_fitbit_data` reads.
`memberSince` is stored already parsed (`arrow.get(member_since,
'YYYY-MM-DD')`); formatting is injective so nothing is lost. -/
structure UserInfo where
  encodedId : String
  memberSince : DateTime
  averageDailySteps : Int
  height : Int
  strideLengthRunning : Int
  strideLengthWalking : Int
  weight : Int
deriving DecidableEq, Repr

/-- A parsed JSON body returned by the Fitbit API: the `user` object (for
the profile endpoint), the `errors`/`success` error-payload fields, and an
opaque identifier standing for the rest of the payload. -/
structure QueryResult where
  user : Option UserInfo
  errors : Option Nat
  success : Option Bool
  payload : Nat
deriving DecidableEq, Repr

/-- The dict assigned to `fitbit_data['profile']`. -/
structure Profile where
  averageDailySteps : Int
  encodedId : String
  height : Int
  memberSince : DateTime
  strideLengthRunning : Int
  strideLengthWalking : Int
  weight : Int
deriving DecidableEq, Repr

def profileOf (u : UserInfo) : Profile :=
  { averageDailySteps := u.averageDailySteps
    encodedId := u.encodedId
    height := u.height
    memberSince := u.memberSince
    strideLengthRunning := u.strideLengthRunning
    strideLengthWalking := u.strideLengthWalking
    weight := u.weight }

/-- Python-dict association list: insertion keeps the position of an
existing key and appends a fresh key at the end, like `d[k] = v`. -/
def alistInsert {α : Type} : List (String × α) → String → α → List (String × α)
  | [], k, v => [(k, v)]
  | (k', v') :: rest, k, v =>
    if k' = k then (k, v) :: rest else (k', v') :: alistInsert rest k v

def alistLookup {α : Type} : List (String × α) → String → Option α
  | [], _ => none
  | (k', v) :: rest, k => if k' = k then some v else alistLookup rest k

/-- The merged `fitbit_data` dict.  Calendar-granular resources live in
`resData` (resource name → period key → payload), granularity-`None`
resources in `noneData`, and the `'profile'` entry in `profile`; the three
key spaces are disjoint in the source dict because resource names are
pairwise distinct and none is `'profile'`. -/
structure FitbitData where
  profile : Option Profile
  resData : List (String × List (String × QueryResult))
  noneData : List (String × QueryResult)
deriving DecidableEq, Repr

def emptyFitbitData : FitbitData := ⟨none, [], []⟩

/-- `fitbit_data[name]` for a calendar resource under `defaultdict(dict)`
semantics: a missing name reads as the empty dict. -/
def FitbitData.getRes (d : FitbitData) (name : String) : List (String × QueryResult) :=
  (alistLookup d.resData name).getD []

def FitbitData.setRes (d : FitbitData) (name : String)
    (m : List (String × QueryResult)) : FitbitData :=
  { d with resData := alistInsert d.resData name m }

/-! ## The cache table (`models.CacheItem`) -/

/-- One row of the `CacheItem` table: key (URL + Open Humans id), stored
JSON response, and `request_time` (set to `datetime.now()` on creation). -/
structure CacheItem where
  key : String
  response : QueryResult
  requestTime : Int
deriving DecidableEq, Repr

/-- `db.session.add(CacheItem(data_key, query_result)); db.session.commit()`:
append one fresh row, touching no existing row. -/
def cachePut (cache : List CacheItem) (item : CacheItem) : List CacheItem :=
  cache ++ [item]

/-- Compare one row against the best matching row found later in the list;
an earlier row wins only with a strictly greater `request_time`. -/
def betterItem (c : CacheItem) (k : String) : Option CacheItem → Option CacheItem
  | none => if c.key = k then some c else none
  | some best =>
    if c.key = k ∧ best.requestTime < c.requestTime then some c else some best

/-- `CacheItem.query.filter_by(key=data_key).order_by(CacheItem.request_time
.desc()).first()`: among rows with the given key, the one with the greatest
`request_time` (a later row wins a tie, matching a stable descending sort
over insertion order). -/
def cacheLookup : List CacheItem → String → Option CacheItem
  | [], _ => none
  | c :: rest, k => betterItem c k (cacheLookup rest k)

/-! ## Engine state, errors, and the remote oracle -/

/-- The Python exceptions the engine raises or handles: `RateLimitException`,
`Exception(query_result['errors'])` (carrying the error payload), JSON/parse
`ValueError`s, dict `KeyError`s, and `AttributeError` (the one exception
`create_files` converts into an empty prior dataset). -/
inductive PyError where
  | rateLimit
  | apiError (errs : Nat)
  | valueError
  | keyError
  | attributeError
deriving DecidableEq, Repr

/-- Result of a Python call that can raise. -/
inductive PyResult (α : Type) where
  | ok (a : α)
  | err (e : PyError)
deriving DecidableEq, Repr

/-- Outcome of one attempt of `requests.get` on the remote API:
`limiterError` is `RequestsRespectfulRateLimitedError` raised by the local
rate limiter; otherwise an HTTP status plus the parsed JSON body (`none`
when the body is not JSON, making `.json()` raise). -/
inductive FetchOutcome where
  | limiterError
  | resp (status : Nat) (body : Option QueryResult)
deriving Repr

/-- Ghost record of one `fitbit_query` call. -/
structure LogEntry where
  name : String
  periodKey : Option String
  target : Option DateTime
  remoteTried : Bool
deriving DecidableEq, Repr

/-- The state a sync run threads along: the cache table, the number of
remote calls attempted so far (the oracle index), and the ghost query log. -/
structure QState where
  cache : List CacheItem
  calls : Nat
  log : List LogEntry
deriving DecidableEq, Repr

/-- Run-wide read-only context: the current instant (`arrow.get()`), the
Open Humans user id, and the remote oracle. -/
structure Env where
  now : DateTime
  ohUserId : String
  remote : Nat → String → FetchOutcome

/-- The cache key `'{}-{}'.format(data_url, open_humans_id)` for a formatted
path. -/
def dataKeyOf (env : Env) (path : String) : String :=
  "https://api.fitbit.com/1/user" ++ path ++ "-" ++ env.ohUserId

/-! ## `fitbit_query` -/

/-- Whether a cached row may be served for this query:
`arrow.get() - cache_time <= CACHE_MAX` and
`target_date and cache_time - target_date > CACHE_MIN`. -/
def cacheUsable (env : Env) (c : CacheItem) (targetDate : Option DateTime) : Prop :=
  env.now.toHours - c.requestTime ≤ CACHE_MAX ∧
    ∃ t, targetDate = some t ∧ c.requestTime - t.toHours > CACHE_MIN

instance (env : Env) (c : CacheItem) (targetDate : Option DateTime) :
    Decidable (cacheUsable env c targetDate) := by
  unfold cacheUsable
  rcases targetDate with _ | t
  · exact .isFalse (by simp)
  · by_cases h1 : env.now.toHours - c.requestTime ≤ CACHE_MAX
    · by_cases h2 : c.requestTime - t.toHours > CACHE_MIN
      · exact .isTrue ⟨h1, t, rfl, h2⟩
      · exact .isFalse (by rintro ⟨-, t', ht', h⟩; cases ht'; exact h2 h)
    · exact .isFalse (by rintro ⟨h, -⟩; exact h1 h)

/-- `sources/fitbit.py`, `fitbit_query`: serve a trusted cached response,
otherwise consult the remote API; convert local-limiter errors and HTTP
429/504 into `RateLimitException`; raise on an explicit error payload; cache
the response when the target date is more than `CACHE_MIN` before now.
`tag` is ghost data naming the query for the log. -/
def fitbit_query (env : Env) (st : QState) (name : String) (periodKey : Option String)
    (path : String) (targetDate : Option DateTime) :
    QState × PyResult QueryResult :=
  let dataKey := dataKeyOf env path
  let cached := cacheLookup st.cache dataKey
  match cached with
  | some c =>
    if cacheUsable env c targetDate then
      ({ st with log := st.log ++ [⟨name, periodKey, targetDate, false⟩] },
        .ok c.response)
    else
      fitbitQueryRemote env st name periodKey dataKey targetDate
  | none => fitbitQueryRemote env st name periodKey dataKey targetDate
where
  /-- The part of `fitbit_query` from `requests.get` on. -/
  fitbitQueryRemote (env : Env) (st : QState) (name : String)
      (periodKey : Option String) (dataKey : String) (targetDate : Option DateTime) :
      QState × PyResult QueryResult :=
    let st' : QState :=
      { st with
        calls := st.calls + 1
        log := st.log ++ [⟨name, periodKey, targetDate, true⟩] }
    match env.remote st.calls dataKey with
    | .limiterError => (st', .err .rateLimit)
    | .resp status body =>
      if status = 429 ∨ status = 504 then (st', .err .rateLimit)
      else
        match body with
        | none => (st', .err .valueError)
        | some q =>
          if h : q.errors.isSome ∧ q.success = some false then
            (st', .err (.apiError (q.errors.get h.1)))
          else
            let doCache : Bool :=
              match targetDate with
              | some t => decide (env.now.toHours - t.toHours > CACHE_MIN)
              | none => false
            if doCache then
              ({ st' with
                  cache := cachePut st.cache ⟨dataKey, q, env.now.toHours⟩ },
                .ok q)
            else (st', .ok q)

/-! ## The resource catalog (`fitbit_urls`) -/

inductive Gran where
  | noGran
  | year
  | month
  | day
deriving DecidableEq, Repr

structure FitbitUrl where
  name : String
  url : String
  period : Gran
deriving DecidableEq, Repr

def fitbit_urls : List FitbitUrl := [
  ⟨"activities-overview", "/{user_id}/activities.json", .noGran⟩,
  ⟨"heart", "/{user_id}/activities/heart/date/{start_date}/{end_date}.json", .month⟩,
  ⟨"tracker-activity-calories",
    "/{user_id}/activities/tracker/activityCalories/date/{start_date}/{end_date}.json", .year⟩,
  ⟨"tracker-calories",
    "/{user_id}/activities/tracker/calories/date/{start_date}/{end_date}.json", .year⟩,
  ⟨"tracker-distance",
    "/{user_id}/activities/tracker/distance/date/{start_date}/{end_date}.json", .year⟩,
  ⟨"tracker-elevation",
    "/{user_id}/activities/tracker/elevation/date/{start_date}/{end_date}.json", .year⟩,
  ⟨"tracker-floors",
    "/{user_id}/activities/tracker/floors/date/{start_date}/{end_date}.json", .year⟩,
  ⟨"tracker-minutes-fairly-active",
    "/{user_id}/activities/tracker/minutesFairlyActive/date/{start_date}/{end_date}.json", .year⟩,
  ⟨"tracker-minutes-lightly-active",
    "/{user_id}/activities/tracker/minutesLightlyActive/date/{start_date}/{end_date}.json", .year⟩,
  ⟨"tracker-minutes-sedentary",
    "/{user_id}/activities/tracker/minutesSedentary/date/{start_date}/{end_date}.json", .year⟩,
  ⟨"tracker-minutes-very-active",
    "/{user_id}/activities/tracker/minutesVeryActive/date/{start_date}/{end_date}.json", .year⟩,
  ⟨"tracker-steps",
    "/{user_id}/activities/tracker/steps/date/{start_date}/{end_date}.json", .year⟩,
  ⟨"weight-log",
    "/{user_id}/body/log/weight/date/{start_date}/{end_date}.json", .month⟩,
  ⟨"weight", "/{user_id}/body/weight/date/{start_date}/{end_date}.json", .year⟩,
  ⟨"sleep-awakenings",
    "/{user_id}/sleep/awakeningsCount/date/{start_date}/{end_date}.json", .year⟩,
  ⟨"sleep-efficiency",
    "/{user_id}/sleep/efficiency/date/{start_date}/{end_date}.json", .year⟩,
  ⟨"sleep-minutes-after-wakeup",
    "/{user_id}/sleep/minutesAfterWakeup/date/{start_date}/{end_date}.json", .year⟩,
  ⟨"sleep-minutes",
    "/{user_id}/sleep/minutesAsleep/date/{start_date}/{end_date}.json", .year⟩,
  ⟨"awake-minutes",
    "/{user_id}/sleep/minutesAwake/date/{start_date}/{end_date}.json", .year⟩,
  ⟨"minutes-to-sleep",
    "/{user_id}/sleep/minutesToFallAsleep/date/{start_date}/{end_date}.json", .year⟩,
  ⟨"sleep-start-time",
    "/{user_id}/sleep/startTime/date/{start_date}/{end_date}.json", .year⟩,
  ⟨"time-in-bed",
    "/{user_id}/sleep/timeInBed/date/{start_date}/{end_date}.json", .year⟩,
  ⟨"intraday-heart", "/-/activities/heart/date/{date}/1d/1sec.json", .day⟩,
  ⟨"intraday-steps", "/-/activities/steps/date/{date}/1d/1min.json", .day⟩]

/-! ## Calendar partition ranges (`arrow.Arrow.range`) -/

/-- `arrow.Arrow.range('year', start_date.floor('year'), arrow.get())`:
the year numbers from the "member since" year through the current year. -/
def yearsRange (sy ny : Nat) : List Nat :=
  List.range' sy (ny + 1 - sy)

def monthIdx (y m : Nat) : Nat := 12 * y + (m - 1)

/-- `arrow.Arrow.range('month', start_date.floor('month'), arrow.get())`:
the (year, month) pairs from the "member since" month through the current
month. -/
def monthsRange (s n : DateTime) : List (Nat × Nat) :=
  (List.range' (monthIdx s.year s.month)
      (monthIdx n.year n.month + 1 - monthIdx s.year s.month)).map
    (fun i => (i / 12, i % 12 + 1))

/-! ## `get_fitbit_data` -/

/-- The loop over granularity-`None` resources.  The guard models
`if not user_id and 'profile' in fitbit_data: user_id =
fitbit_data['profile']['user']['encodedId']`: at that point `'profile'` is
always a key of `fitbit_data`, and the freshly stored profile dict has no
`'user'` entry, so a falsy (empty) user id raises `KeyError`. -/
def noneLoop (env : Env) (userId : String) :
    List FitbitUrl → QState → FitbitData → QState × PyResult FitbitData
  | [], st, d => (st, .ok d)
  | u :: rest, st, d =>
    if userId = "" then (st, .err .keyError)
    else
      match fitbit_query env st u.name none (formatPath u.url userId "" "")
        (some env.now) with
      | (st', .ok q) =>
        noneLoop env userId rest st'
          { d with noneData := alistInsert d.noneData u.name q }
      | (st', .err e) => (st', .err e)

/-- One partition of the calendar iteration: the period key it is recorded
under, the formatted request path, and the target date.  The yearly and
monthly `for` loops of `get_fitbit_data` are textually identical up to
these three expressions, so they are modelled as one loop over a list of
`PartSpec`s. -/
structure PartSpec where
  key : String
  path : String
  target : DateTime
deriving DecidableEq, Repr

/-- The partitions the yearly loop iterates over for one url:
`arrow.Arrow.range('year', ...)`, start/end dates `floor('year')` /
`ceil('year')` formatted `'YYYY-MM-DD'`, key `format('YYYY')`, target date
`ceil('year')`. -/
def yearSpecs (env : Env) (userId : String) (u : FitbitUrl) (startDate : DateTime) :
    List PartSpec :=
  (yearsRange (floorYear startDate).year env.now.year).map fun y =>
    ⟨yearKey y,
      formatPath u.url userId (fmtYMD (floorYear ⟨y, 1, 1, 0⟩))
        (fmtYMD (ceilYear ⟨y, 1, 1, 0⟩)),
      ceilYear ⟨y, 1, 1, 0⟩⟩

/-- The partitions the monthly loop iterates over for one url (keys
`format('YYYY-MM')`, target date `ceil('month')`). -/
def monthSpecs (env : Env) (userId : String) (u : FitbitUrl) (startDate : DateTime) :
    List PartSpec :=
  (monthsRange (floorMonth startDate) env.now).map fun ym =>
    ⟨monthKey ym.1 ym.2,
      formatPath u.url userId (fmtYMD (floorMonth ⟨ym.1, ym.2, 1, 0⟩))
        (fmtYMD (ceilMonth ⟨ym.1, ym.2, 1, 0⟩)),
      ceilMonth ⟨ym.1, ym.2, 1, 0⟩⟩

/-- The inner loop of the calendar-resource iteration: skip a period whose
key is already present, otherwise query it and record the result under its
period key. -/
def partLoop (env : Env) (name : String) :
    List PartSpec → QState → List (String × QueryResult) →
      QState × PyResult (List (String × QueryResult))
  | [], st, m => (st, .ok m)
  | p :: rest, st, m =>
    if (alistLookup m p.key).isSome then
      partLoop env name rest st m
    else
      match fitbit_query env st name (some p.key) p.path (some p.target) with
      | (st', .ok q) => partLoop env name rest st' (alistInsert m p.key q)
      | (st', .err e) => (st', .err e)

/-- The outer loop over the urls of one calendar granularity. -/
def calUrlsLoop (env : Env) (specsOf : FitbitUrl → List PartSpec) :
    List FitbitUrl → QState → FitbitData → QState × PyResult FitbitData
  | [], st, d => (st, .ok d)
  | u :: rest, st, d =>
    match partLoop env u.name (specsOf u) st (d.getRes u.name) with
    | (st', .ok m) => calUrlsLoop env specsOf rest st' (d.setRes u.name m)
    | (st', .err e) => (st', .err e)

/-- The part of `get_fitbit_data` after the profile has been resolved and
the prior data possibly reset: fetch the granularity-`None` resources, then
all yearly partitions, then all monthly partitions. -/
def gfd_rest (env : Env) (userId : String) (startDate : DateTime) (st : QState)
    (fd2 : FitbitData) : QState × PyResult FitbitData :=
  match noneLoop env userId (fitbit_urls.filter (fun u => u.period == .noGran)) st fd2 with
  | (st2, .err e) => (st2, .err e)
  | (st2, .ok fd3) =>
    match calUrlsLoop env (fun u => yearSpecs env userId u startDate)
      (fitbit_urls.filter (fun u => u.period == .year)) st2 fd3 with
    | (st3, .err e) => (st3, .err e)
    | (st3, .ok fd4) =>
      calUrlsLoop env (fun u => monthSpecs env userId u startDate)
        (fitbit_urls.filter (fun u => u.period == .month)) st3 fd4

/-- `sources/fitbit.py`, `get_fitbit_data`: query the profile, reset all
prior data if the stored `encodedId` differs from the freshly resolved one,
overwrite the stored profile, then fetch the granularity-`None`, yearly and
monthly resources, skipping calendar period keys already present. -/
def get_fitbit_data (env : Env) (st : QState) (fd : FitbitData) :
    QState × PyResult FitbitData :=
  match fitbit_query env st "profile" none "/-/profile.json" none with
  | (st1, .err e) => (st1, .err e)
  | (st1, .ok q) =>
    match q.user with
    | none => (st1, .err .keyError)
    | some usr =>
      let userId := usr.encodedId
      let startDate := usr.memberSince
      let fd1 : FitbitData :=
        match fd.profile with
        | some p => if p.encodedId ≠ userId then emptyFitbitData else fd
        | none => fd
      let fd2 : FitbitData := { fd1 with profile := some (profileOf usr) }
      gfd_rest env userId startDate st1 fd2

/-! ## Loading previously stored data (`FitbitSource`) -/

/-- Split a character list on a separator, like `str.split`. -/
def splitChar (c : Char) : List Char → List (List Char)
  | [] => [[]]
  | x :: xs =>
    match splitChar c xs with
    | [] => [[]]
    | g :: gs => if x = c then [] :: g :: gs else (x :: g) :: gs

def digitsToNat? (cs : List Char) : Option Nat :=
  if cs = [] then none
  else cs.foldl
    (fun acc c => match acc with
      | none => none
      | some a => if c.isDigit then some (a * 10 + (c.toNat - 48)) else none)
    (some 0)

/-- `arrow.get` on a `'YYYY-MM'` string: the first instant of that month,
`none` when parsing fails (where `arrow` raises). -/
def parseMonthKey (s : String) : Option DateTime :=
  match splitChar '-' s.data with
  | [ys, ms] =>
    match digitsToNat? ys, digitsToNat? ms with
    | some y, some m => if 1 ≤ m ∧ m ≤ 12 then some ⟨y, m, 1, 0⟩ else none
    | _, _ => none
  | _ => none

/-- `arrow.get('{}-01'.format(year))` on a yearly period key. -/
def parseYearKey (s : String) : Option DateTime :=
  parseMonthKey (s ++ "-01")

/-- Python `max` over date-times: keep the incumbent unless a later element
is strictly greater. -/
def maxDT (x : DateTime) (xs : List DateTime) : DateTime :=
  xs.foldl (fun a b => if b.toHours > a.toHours then b else a) x

/-- One pass of `_guess_storage_date` over the urls of one granularity:
for the first url whose stored key set is non-empty, the floored maximum of
its parsed keys; `KeyError` when a url's name is missing from the stored
dict, a parse failure where `arrow.get` raises. -/
def guessFromUrls (parse : String → Option DateTime) (floorOf : DateTime → DateTime) :
    List FitbitUrl → FitbitData → PyResult (Option DateTime)
  | [], _ => .ok none
  | u :: rest, c =>
    match alistLookup c.resData u.name with
    | none => .err .keyError
    | some m =>
      match m with
      | [] => guessFromUrls parse floorOf rest c
      | _ :: _ =>
        match (m.map Prod.fst).mapM parse with
        | none => .err .valueError
        | some [] => .ok none
        | some (d :: ds) => .ok (some (floorOf (maxDT d ds)))

/-- `FitbitSource._guess_storage_date`. -/
def guess_storage_date (c : FitbitData) : PyResult DateTime :=
  match guessFromUrls parseMonthKey floorMonth
    (fitbit_urls.filter (fun u => u.period == .month)) c with
  | .err e => .err e
  | .ok (some dt) => .ok dt
  | .ok none =>
    match guessFromUrls parseYearKey floorYear
      (fitbit_urls.filter (fun u => u.period == .year)) c with
    | .err e => .err e
    | .ok (some dt) => .ok dt
    | .ok none => .ok ⟨2000, 1, 1, 0⟩

/-- The per-resource copy filter of `load_existing_fitbit_data`: keep a
stored partition unless `storage_date - period_end < STORAGE_MIN`. -/
def filterPeriodMap (storage : DateTime) (ceilOf : DateTime → DateTime)
    (parse : String → Option DateTime) :
    List (String × QueryResult) → PyResult (List (String × QueryResult))
  | [] => .ok []
  | (k, v) :: rest =>
    match parse k with
    | none => .err .valueError
    | some kd =>
      match filterPeriodMap storage ceilOf parse rest with
      | .err e => .err e
      | .ok r =>
        if storage.toHours - (ceilOf kd).toHours < STORAGE_MIN then .ok r
        else .ok ((k, v) :: r)

/-- The copy loop over all urls of one granularity; a resource name appears
in the result only when at least one of its partitions was kept (the
`defaultdict` materializes an entry only on assignment). -/
def loadCopyUrls (storage : DateTime) (ceilOf : DateTime → DateTime)
    (parse : String → Option DateTime) :
    List FitbitUrl → FitbitData →
      PyResult (List (String × List (String × QueryResult)))
  | [], _ => .ok []
  | u :: rest, c =>
    match alistLookup c.resData u.name with
    | none => .err .keyError
    | some m =>
      match filterPeriodMap storage ceilOf parse m with
      | .err e => .err e
      | .ok kept =>
        match loadCopyUrls storage ceilOf parse rest c with
        | .err e => .err e
        | .ok tailEntries =>
          .ok (if kept.isEmpty then tailEntries else (u.name, kept) :: tailEntries)

/-- The inputs of `load_existing_fitbit_data` that come from outside the
engine: the basenames reported by `get_current_files`, and the result of
downloading and `json.load`-ing the target file (an error constructor when
retrieval, parsing, or dict access on malformed content raises). -/
structure LoadInput where
  fileNames : List String
  content : PyResult FitbitData

/-- `FitbitSource.load_existing_fitbit_data`: with no stored
`fitbit-data.json` return an empty dataset; otherwise keep the stored
profile verbatim and re-use exactly the partitions older than `STORAGE_MIN`
relative to the guessed storage date. -/
def load_existing_fitbit_data (li : LoadInput) : PyResult FitbitData :=
  if "fitbit-data.json" ∈ li.fileNames then
    match li.content with
    | .err e => .err e
    | .ok current =>
      match guess_storage_date current with
      | .err e => .err e
      | .ok storage =>
        match loadCopyUrls storage ceilYear parseYearKey
          (fitbit_urls.filter (fun u => u.period == .year)) current with
        | .err e => .err e
        | .ok yearEntries =>
          match loadCopyUrls storage ceilMonth parseMonthKey
            (fitbit_urls.filter (fun u => u.period == .month)) current with
          | .err e => .err e
          | .ok monthEntries =>
            .ok ⟨current.profile, yearEntries ++ monthEntries, []⟩
  else .ok emptyFitbitData

/-! ## `create_files` -/

structure CFInput where
  env : Env
  load : LoadInput

inductive CreateResult where
  /-- `{'countdown': 900}`: skip file creation, ask to be re-run later. -/
  | countdown (n : Nat)
  /-- The dataset dumped to `fitbit-data.json`. -/
  | written (d : FitbitData)
deriving DecidableEq, Repr

/-- `FitbitSource.create_files`: load prior data (an `AttributeError`
degrades to an empty prior dataset), run `get_fitbit_data`, convert
`RateLimitException` into a countdown result, let any other exception
propagate.  File-system side effects are not modelled; the written dataset
is carried in the result. -/
def create_files (inp : CFInput) (st : QState) : QState × PyResult CreateResult :=
  let stored : PyResult FitbitData :=
    match load_existing_fitbit_data inp.load with
    | .ok d => .ok d
    | .err .attributeError => .ok emptyFitbitData
    | .err e => .err e
  match stored with
  | .err e => (st, .err e)
  | .ok sd =>
    match get_fitbit_data inp.env st sd with
    | (st', .ok d) => (st', .ok (.written d))
    | (st', .err .rateLimit) => (st', .ok (.countdown 900))
    | (st', .err e) => (st', .err e)

/-! ## Basic lemmas: association lists and the cache table -/

theorem alistLookup_insert_self {α : Type} (m : List (String × α)) (k : String) (v : α) :
    alistLookup (alistInsert m k v) k = some v := by
  induction m with
  | nil => simp [alistInsert, alistLookup]
  | cons hd tl ih =>
    obtain ⟨k', v'⟩ := hd
    by_cases h : k' = k
    · simp [alistInsert, alistLookup, h]
    · simp [alistInsert, alistLookup, h, ih]

theorem alistLookup_insert_ne {α : Type} (m : List (String × α)) (k k' : String) (v : α)
    (h : k' ≠ k) : alistLookup (alistInsert m k v) k' = alistLookup m k' := by
  have hne : k ≠ k' := fun hh => h hh.symm
  induction m with
  | nil => simp [alistInsert, alistLookup, hne]
  | cons hd tl ih =>
    obtain ⟨k0, v0⟩ := hd
    by_cases h0 : k0 = k
    · subst h0
      simp [alistInsert, alistLookup, hne]
    · by_cases h1 : k0 = k'
      · simp [alistInsert, alistLookup, h0, h1, hne, h]
      · simp [alistInsert, alistLookup, h0, h1, ih]

theorem alistLookup_insert_isSome {α : Type} (m : List (String × α)) (k k' : String) (v : α)
    (h : (alistLookup m k').isSome) : (alistLookup (alistInsert m k v) k').isSome := by
  by_cases hk : k' = k
  · subst hk; simp [alistLookup_insert_self]
  · rwa [alistLookup_insert_ne m k k' v hk]

theorem alistLookup_append {α : Type} (l1 l2 : List (String × α)) (k : String) :
    alistLookup (l1 ++ l2) k =
      match alistLookup l1 k with
      | some v => some v
      | none => alistLookup l2 k := by
  induction l1 with
  | nil => simp [alistLookup]
  | cons hd tl ih =>
    obtain ⟨k', v'⟩ := hd
    by_cases h : k' = k
    · simp [alistLookup, h]
    · simp [alistLookup, h, ih]

theorem cacheLookup_eq_none (cache : List CacheItem) (k : String)
    (h : cacheLookup cache k = none) : ∀ c ∈ cache, c.key ≠ k := by
  induction cache with
  | nil => simp
  | cons hd tl ih =>
    rw [cacheLookup] at h
    rcases hre : cacheLookup tl k with _ | best
    · rw [hre] at h
      intro c hc
      rcases List.mem_cons.mp hc with rfl | hc
      · intro hk
        rw [betterItem, if_pos hk] at h
        exact Option.noConfusion h
      · exact ih hre c hc
    · rw [hre] at h
      rw [betterItem] at h
      split at h <;> exact Option.noConfusion h

theorem cacheLookup_mem (cache : List CacheItem) (k : String) :
    ∀ c, cacheLookup cache k = some c →
      c ∈ cache ∧ c.key = k ∧ ∀ c' ∈ cache, c'.key = k → c'.requestTime ≤ c.requestTime := by
  induction cache with
  | nil => intro c h; simp [cacheLookup] at h
  | cons hd tl ih =>
    intro c h
    rw [cacheLookup] at h
    rcases hre : cacheLookup tl k with _ | best
    · rw [hre, betterItem] at h
      by_cases hk : hd.key = k
      · rw [if_pos hk] at h
        obtain rfl : hd = c := by simpa using h
        refine ⟨List.mem_cons_self _ _, hk, ?_⟩
        intro c' hc' hkey
        rcases List.mem_cons.mp hc' with rfl | hc'
        · exact le_refl _
        · exact absurd hkey (cacheLookup_eq_none tl k hre c' hc')
      · rw [if_neg hk] at h
        exact Option.noConfusion h
    · rw [hre, betterItem] at h
      obtain ⟨hmem, hkey, hub⟩ := ih best hre
      by_cases hcond : hd.key = k ∧ best.requestTime < hd.requestTime
      · rw [if_pos hcond] at h
        obtain rfl : hd = c := by simpa using h
        refine ⟨List.mem_cons_self _ _, hcond.1, ?_⟩
        intro c' hc' hkey'
        rcases List.mem_cons.mp hc' with rfl | hc'
        · exact le_refl _
        · exact le_of_lt (lt_of_le_of_lt (hub c' hc' hkey') hcond.2)
      · rw [if_neg hcond] at h
        obtain rfl : best = c := by simpa using h
        refine ⟨List.mem_cons_of_mem _ hmem, hkey, ?_⟩
        intro c' hc' hkey'
        rcases List.mem_cons.mp hc' with rfl | hc'
        · by_cases hbc : best.requestTime < c'.requestTime
          · exact absurd ⟨hkey', hbc⟩ hcond
          · exact le_of_not_lt hbc
        · exact hub c' hc' hkey'

theorem cacheLookup_isSome_iff (cache : List CacheItem) (k : String) :
    (cacheLookup cache k).isSome ↔ ∃ c ∈ cache, c.key = k := by
  constructor
  · intro h
    rcases ho : cacheLookup cache k with _ | c
    · rw [ho] at h; exact absurd h (by simp)
    · obtain ⟨hm, hk, -⟩ := cacheLookup_mem cache k c ho
      exact ⟨c, hm, hk⟩
  · rintro ⟨c, hm, hk⟩
    rcases ho : cacheLookup cache k with _ | c'
    · exact absurd hk (cacheLookup_eq_none cache k ho c hm)
    · simp

/-! ## Characterizing one `fitbit_query` call -/

/-- What the remote half of `fitbit_query` returns, as a function of the
oracle outcome at the current call index. -/
def remoteResult (env : Env) (st : QState) (dk : String) : PyResult QueryResult :=
  match env.remote st.calls dk with
  | .limiterError => .err .rateLimit
  | .resp s body =>
    if s = 429 ∨ s = 504 then .err .rateLimit
    else
      match body with
      | none => .err .valueError
      | some q =>
        if h : q.errors.isSome ∧ q.success = some false then
          .err (.apiError (q.errors.get h.1))
        else .ok q

/-- The cache the remote half leaves behind: one appended row exactly when
the fetch succeeded and the target date is more than `CACHE_MIN` old. -/
def remoteCache (env : Env) (st : QState) (dk : String) (t : Option DateTime) :
    List CacheItem :=
  match remoteResult env st dk, t with
  | .ok q, some td =>
    if env.now.toHours - td.toHours > CACHE_MIN then
      cachePut st.cache ⟨dk, q, env.now.toHours⟩
    else st.cache
  | .ok _, none => st.cache
  | .err _, _ => st.cache

theorem fqRemote_eq (env : Env) (st : QState) (n : String) (pk : Option String)
    (dk : String) (t : Option DateTime) :
    fitbit_query.fitbitQueryRemote env st n pk dk t =
      (⟨remoteCache env st dk t, st.calls + 1, st.log ++ [⟨n, pk, t, true⟩]⟩,
        remoteResult env st dk) := by
  unfold fitbit_query.fitbitQueryRemote remoteCache remoteResult
  rcases env.remote st.calls dk with _ | ⟨s, body⟩
  · rfl
  · by_cases hs : s = 429 ∨ s = 504
    · simp only [if_pos hs]
    · simp only [if_neg hs]
      rcases body with _ | q
      · rfl
      · by_cases he : q.errors.isSome ∧ q.success = some false
        · simp only [dif_pos he]
        · simp only [dif_neg he]
          rcases t with _ | td
          · rfl
          · by_cases hc : env.now.toHours - td.toHours > CACHE_MIN
            · simp [hc]
            · simp [hc]

theorem fq_eq (env : Env) (st : QState) (n : String) (pk : Option String)
    (path : String) (t : Option DateTime) :
    fitbit_query env st n pk path t =
      match cacheLookup st.cache (dataKeyOf env path) with
      | some c =>
        if cacheUsable env c t then
          ({ st with log := st.log ++ [⟨n, pk, t, false⟩] }, .ok c.response)
        else
          (⟨remoteCache env st (dataKeyOf env path) t, st.calls + 1,
              st.log ++ [⟨n, pk, t, true⟩]⟩,
            remoteResult env st (dataKeyOf env path))
      | none =>
        (⟨remoteCache env st (dataKeyOf env path) t, st.calls + 1,
            st.log ++ [⟨n, pk, t, true⟩]⟩,
          remoteResult env st (dataKeyOf env path)) := by
  unfold fitbit_query
  rcases hc : cacheLookup st.cache (dataKeyOf env path) with _ | c
  · simp only [hc]
    rw [fqRemote_eq]
  · simp only [hc]
    by_cases h : cacheUsable env c t
    · simp only [if_pos h]
    · simp only [if_neg h]
      rw [fqRemote_eq]

/-! ## C9: cache rows are append-only; lookup takes the most recent row -/

/-- **C9**: Cache entries are append-only and never mutated: a put appends
one fresh row and leaves every existing row in place (even when the key
already occurs); a get returns a row carrying the queried key whose request
time is maximal among all rows with that key. -/
theorem cache_append_only_most_recent (cache : List CacheItem) (i c : CacheItem)
    (k : String) (h : cacheLookup cache k = some c) :
    ((cachePut cache i).length = cache.length + 1 ∧
      (∀ n, n < cache.length → (cachePut cache i).get? n = cache.get? n) ∧
      (cachePut cache i).get? cache.length = some i) ∧
    (c ∈ cache ∧ c.key = k ∧
      ∀ c' ∈ cache, c'.key = k → c'.requestTime ≤ c.requestTime) := by
  refine ⟨⟨by simp [cachePut], ?_, by simp [cachePut]⟩, cacheLookup_mem cache k c h⟩
  intro n hn
  simp only [cachePut, List.get?_eq_getElem?]
  exact List.getElem?_append_left hn

theorem cache_append_only_most_recent_witness :
    ((cachePut [⟨"k", ⟨none, none, none, 0⟩, 5⟩] ⟨"k", ⟨none, none, none, 1⟩, 6⟩).length =
        [(⟨"k", ⟨none, none, none, 0⟩, 5⟩ : CacheItem)].length + 1 ∧
      (∀ n, n < [(⟨"k", ⟨none, none, none, 0⟩, 5⟩ : CacheItem)].length →
        (cachePut [⟨"k", ⟨none, none, none, 0⟩, 5⟩] ⟨"k", ⟨none, none, none, 1⟩, 6⟩).get? n =
          [(⟨"k", ⟨none, none, none, 0⟩, 5⟩ : CacheItem)].get? n) ∧
      (cachePut [⟨"k", ⟨none, none, none, 0⟩, 5⟩] ⟨"k", ⟨none, none, none, 1⟩, 6⟩).get?
        [(⟨"k", ⟨none, none, none, 0⟩, 5⟩ : CacheItem)].length = some ⟨"k", ⟨none, none, none, 1⟩, 6⟩) ∧
    ((⟨"k", ⟨none, none, none, 0⟩, 5⟩ : CacheItem) ∈
        [(⟨"k", ⟨none, none, none, 0⟩, 5⟩ : CacheItem)] ∧
      (⟨"k", ⟨none, none, none, 0⟩, 5⟩ : CacheItem).key = "k" ∧
      ∀ c' ∈ [(⟨"k", ⟨none, none, none, 0⟩, 5⟩ : CacheItem)], c'.key = "k" →
        c'.requestTime ≤ (⟨"k", ⟨none, none, none, 0⟩, 5⟩ : CacheItem).requestTime) :=
  cache_append_only_most_recent [⟨"k", ⟨none, none, none, 0⟩, 5⟩]
    ⟨"k", ⟨none, none, none, 1⟩, 6⟩ ⟨"k", ⟨none, none, none, 0⟩, 5⟩ "k" (by decide)

/-! ## Reduction lemmas for `remoteCache` -/

theorem remoteCache_none (env : Env) (st : QState) (dk : String) :
    remoteCache env st dk none = st.cache := by
  unfold remoteCache
  rcases remoteResult env st dk with q | e <;> rfl

theorem remoteCache_closed (env : Env) (st : QState) (dk : String) (td : DateTime)
    (q : QueryResult) (hok : remoteResult env st dk = .ok q)
    (hcl : env.now.toHours - td.toHours > CACHE_MIN) :
    remoteCache env st dk (some td) = cachePut st.cache ⟨dk, q, env.now.toHours⟩ := by
  unfold remoteCache
  rw [hok]
  simp [hcl]

theorem remoteCache_open (env : Env) (st : QState) (dk : String) (td : DateTime)
    (q : QueryResult) (hok : remoteResult env st dk = .ok q)
    (hcl : ¬env.now.toHours - td.toHours > CACHE_MIN) :
    remoteCache env st dk (some td) = st.cache := by
  unfold remoteCache
  rw [hok]
  simp [hcl]

theorem remoteCache_err (env : Env) (st : QState) (dk : String) (t : Option DateTime)
    (e : PyError) (he : remoteResult env st dk = .err e) :
    remoteCache env st dk t = st.cache := by
  unfold remoteCache
  rw [he]

/-- `fitbit_query` in the cache-hit case, as one equation. -/
theorem fq_hit (env : Env) (st : QState) (n : String) (pk : Option String)
    (path : String) (t : Option DateTime) (c : CacheItem)
    (hc : cacheLookup st.cache (dataKeyOf env path) = some c)
    (hu : cacheUsable env c t) :
    fitbit_query env st n pk path t =
      ({ st with log := st.log ++ [⟨n, pk, t, false⟩] }, .ok c.response) := by
  rw [fq_eq]
  simp only [hc, if_pos hu]

/-- `fitbit_query` in the remote case (no cached row, or an unusable one),
as one equation. -/
theorem fq_remote (env : Env) (st : QState) (n : String) (pk : Option String)
    (path : String) (t : Option DateTime)
    (h : ∀ c, cacheLookup st.cache (dataKeyOf env path) = some c → ¬cacheUsable env c t) :
    fitbit_query env st n pk path t =
      (⟨remoteCache env st (dataKeyOf env path) t, st.calls + 1,
          st.log ++ [⟨n, pk, t, true⟩]⟩,
        remoteResult env st (dataKeyOf env path)) := by
  rw [fq_eq]
  rcases hc : cacheLookup st.cache (dataKeyOf env path) with _ | c
  · simp only [hc]
  · simp only [hc, if_neg (h c hc)]

/-! ## C2: the cache trust window -/

/-- **C2**: A query is answered from cache without a remote call only if the
cached row was fetched within `CACHE_MAX` of now *and* the target date lies
more than `CACHE_MIN` before now (given that no cached row postdates now);
otherwise the remote API is consulted (the call counter is bumped).  A query
with no target date never reuses the cache. -/
theorem cache_trust_window (env : Env) (st : QState) (n : String) (pk : Option String)
    (path : String) (t : Option DateTime)
    (hpast : ∀ e ∈ st.cache, e.requestTime ≤ env.now.toHours) :
    ((fitbit_query env st n pk path t).1.calls = st.calls + 1 ∨
      ((fitbit_query env st n pk path t).1.calls = st.calls ∧
        ∃ c td, cacheLookup st.cache (dataKeyOf env path) = some c ∧
          t = some td ∧
          env.now.toHours - c.requestTime ≤ CACHE_MAX ∧
          env.now.toHours - td.toHours > CACHE_MIN ∧
          (fitbit_query env st n pk path t).2 = .ok c.response)) ∧
    (t = none → (fitbit_query env st n pk path t).1.calls = st.calls + 1) := by
  rcases hc : cacheLookup st.cache (dataKeyOf env path) with _ | c
  · rw [fq_remote env st n pk path t (fun c hcc => by rw [hc] at hcc; exact Option.noConfusion hcc)]
    exact ⟨.inl rfl, fun _ => rfl⟩
  · by_cases hu : cacheUsable env c t
    · rw [fq_hit env st n pk path t c hc hu]
      obtain ⟨h1, td, ht, h2⟩ := hu
      have hck : c ∈ st.cache := (cacheLookup_mem st.cache (dataKeyOf env path) c hc).1
      have hle : c.requestTime ≤ env.now.toHours := hpast c hck
      refine ⟨.inr ⟨rfl, c, td, rfl, ht, h1, by linarith, rfl⟩, ?_⟩
      intro h0
      rw [h0] at ht
      exact Option.noConfusion ht
    · rw [fq_remote env st n pk path t (fun c' hcc => by
        have h2 : c = c' := by
          have h3 := hc.symm.trans hcc
          simpa using h3
        exact h2 ▸ hu)]
      exact ⟨.inl rfl, fun _ => rfl⟩

/-- Concrete inputs used by witnesses: a benign remote body, a fixed current
instant, and a cache row fetched two hours before now. -/
def qrW : QueryResult := ⟨none, none, none, 7⟩

def nowW : DateTime := ⟨2021, 6, 20, 5⟩

def envW1 : Env := ⟨nowW, "oh", fun _ _ => .resp 200 (some qrW)⟩

def rowW : CacheItem :=
  ⟨"https://api.fitbit.com/1/user/X/activities.json-oh", ⟨none, none, none, 3⟩,
    nowW.toHours - 2⟩

def stW1 : QState := ⟨[rowW], 0, []⟩

theorem cache_trust_window_witness :
    (((fitbit_query envW1 stW1 "activities-overview" none "/X/activities.json"
          (some ⟨2021, 5, 31, 23⟩)).1.calls = stW1.calls + 1 ∨
        ((fitbit_query envW1 stW1 "activities-overview" none "/X/activities.json"
            (some ⟨2021, 5, 31, 23⟩)).1.calls = stW1.calls ∧
          ∃ c td, cacheLookup stW1.cache (dataKeyOf envW1 "/X/activities.json") = some c ∧
            (some ⟨2021, 5, 31, 23⟩ : Option DateTime) = some td ∧
            envW1.now.toHours - c.requestTime ≤ CACHE_MAX ∧
            envW1.now.toHours - td.toHours > CACHE_MIN ∧
            (fitbit_query envW1 stW1 "activities-overview" none "/X/activities.json"
              (some ⟨2021, 5, 31, 23⟩)).2 = .ok c.response)) ∧
      ((some ⟨2021, 5, 31, 23⟩ : Option DateTime) = none →
        (fitbit_query envW1 stW1 "activities-overview" none "/X/activities.json"
          (some ⟨2021, 5, 31, 23⟩)).1.calls = stW1.calls + 1)) :=
  cache_trust_window envW1 stW1 "activities-overview" none "/X/activities.json"
    (some ⟨2021, 5, 31, 23⟩) (by decide)

/-! ## C7: when is a response recorded in the cache? -/

/-- **C7 counterexample**: A successful remote fetch of a query with no
target date (the profile / granularity-`None` situation) creates *no* cache
entry: here the fetch succeeds (`calls` goes to 1, the result is the remote
body), yet the cache stays empty, contradicting "created on every successful
remote fetch ... still record the response for audit/debugging". -/
theorem refetch_without_cache_record_cex :
    (fitbit_query envW1 ⟨[], 0, []⟩ "activities-overview" none
        "/X/activities.json" none).2 = .ok qrW ∧
    (fitbit_query envW1 ⟨[], 0, []⟩ "activities-overview" none
        "/X/activities.json" none).1.calls = 1 ∧
    (fitbit_query envW1 ⟨[], 0, []⟩ "activities-overview" none
        "/X/activities.json" none).1.cache = [] := by
  decide

theorem cachePut_ne_self (cache : List CacheItem) (i : CacheItem) :
    cache ≠ cachePut cache i := by
  intro h
  have h2 := congrArg List.length h
  simp [cachePut] at h2

/-- **C7 amended**: A remote fetch that succeeds records its response in the
cache if and only if the query has a target date lying more than `CACHE_MIN`
before now; in particular a query with no target date (granularity `None`)
never records anything. -/
theorem cache_record_iff_closed_target (env : Env) (st : QState) (n : String)
    (pk : Option String) (path : String) (t : Option DateTime)
    (hq : (fitbit_query env st n pk path t).1.calls = st.calls + 1) :
    ∀ q, (fitbit_query env st n pk path t).2 = .ok q →
      (((fitbit_query env st n pk path t).1.cache =
          cachePut st.cache ⟨dataKeyOf env path, q, env.now.toHours⟩) ↔
        (∃ td, t = some td ∧ env.now.toHours - td.toHours > CACHE_MIN)) ∧
      (t = none → (fitbit_query env st n pk path t).1.cache = st.cache) := by
  have hrem : ∀ c, cacheLookup st.cache (dataKeyOf env path) = some c →
      ¬cacheUsable env c t := by
    intro c hc hu
    rw [fq_hit env st n pk path t c hc hu] at hq
    exact absurd hq (by simp)
  rw [fq_remote env st n pk path t hrem] at hq ⊢
  intro q hok
  dsimp only at hok ⊢
  rcases t with _ | td
  · rw [remoteCache_none]
    refine ⟨⟨fun h => absurd h (cachePut_ne_self _ _), ?_⟩, fun _ => rfl⟩
    rintro ⟨td, htd, -⟩
    exact Option.noConfusion htd
  · by_cases hcl : env.now.toHours - td.toHours > CACHE_MIN
    · rw [remoteCache_closed env st (dataKeyOf env path) td q hok hcl]
      refine ⟨⟨fun _ => ⟨td, rfl, hcl⟩, fun _ => rfl⟩, ?_⟩
      intro h0
      exact Option.noConfusion h0
    · rw [remoteCache_open env st (dataKeyOf env path) td q hok hcl]
      refine ⟨⟨fun h => absurd h (cachePut_ne_self _ _), ?_⟩, ?_⟩
      · rintro ⟨td', htd', hcl'⟩
        obtain rfl : td = td' := by simpa using htd'
        exact absurd hcl' hcl
      · intro h0
        exact Option.noConfusion h0

theorem cache_record_iff_closed_target_witness :
    (fitbit_query envW1 ⟨[], 0, []⟩ "activities-overview" none
        "/X/activities.json" none).2 = .ok qrW ∧
    ((((fitbit_query envW1 ⟨[], 0, []⟩ "activities-overview" none
          "/X/activities.json" none).1.cache =
          cachePut (⟨[], 0, []⟩ : QState).cache
            ⟨dataKeyOf envW1 "/X/activities.json", qrW, envW1.now.toHours⟩) ↔
        (∃ td, (none : Option DateTime) = some td ∧
          envW1.now.toHours - td.toHours > CACHE_MIN)) ∧
      ((none : Option DateTime) = none →
        (fitbit_query envW1 ⟨[], 0, []⟩ "activities-overview" none
          "/X/activities.json" none).1.cache = (⟨[], 0, []⟩ : QState).cache)) :=
  ⟨by decide,
    cache_record_iff_closed_target envW1 ⟨[], 0, []⟩ "activities-overview" none
      "/X/activities.json" none (by decide) qrW (by decide)⟩

/-! ## Error classification for the load path, and `create_files` equations -/

theorem guessFromUrls_err (parse : String → Option DateTime) (floorOf : DateTime → DateTime) :
    ∀ (urls : List FitbitUrl) (c : FitbitData) (e : PyError),
      guessFromUrls parse floorOf urls c = .err e → e = .keyError ∨ e = .valueError := by
  intro urls
  induction urls with
  | nil =>
    intro c e h
    simp [guessFromUrls] at h
  | cons u rest ih =>
    intro c e h
    rw [guessFromUrls] at h
    rcases hl : alistLookup c.resData u.name with _ | m
    · simp only [hl] at h
      cases h
      exact .inl rfl
    · simp only [hl] at h
      rcases m with _ | ⟨kv, m'⟩
      · exact ih c e h
      · rcases hm : ((kv :: m').map Prod.fst).mapM parse with _ | ds
        · simp only [hm] at h
          cases h
          exact .inr rfl
        · simp only [hm] at h
          rcases ds with _ | ⟨d, ds'⟩ <;> exact absurd h (by simp)

theorem filterPeriodMap_err (storage : DateTime) (ceilOf : DateTime → DateTime)
    (parse : String → Option DateTime) :
    ∀ (m : List (String × QueryResult)) (e : PyError),
      filterPeriodMap storage ceilOf parse m = .err e → e = .valueError := by
  intro m
  induction m with
  | nil =>
    intro e h
    simp [filterPeriodMap] at h
  | cons kv rest ih =>
    intro e h
    obtain ⟨k, v⟩ := kv
    rw [filterPeriodMap] at h
    rcases hp : parse k with _ | kd
    · simp only [hp] at h
      cases h
      rfl
    · simp only [hp] at h
      rcases hr : filterPeriodMap storage ceilOf parse rest with r | e'
      · simp only [hr] at h
        split at h <;> exact absurd h (by simp)
      · simp only [hr] at h
        cases h
        exact ih e hr

theorem loadCopyUrls_err (storage : DateTime) (ceilOf : DateTime → DateTime)
    (parse : String → Option DateTime) :
    ∀ (urls : List FitbitUrl) (c : FitbitData) (e : PyError),
      loadCopyUrls storage ceilOf parse urls c = .err e →
        e = .keyError ∨ e = .valueError := by
  intro urls
  induction urls with
  | nil =>
    intro c e h
    simp [loadCopyUrls] at h
  | cons u rest ih =>
    intro c e h
    rw [loadCopyUrls] at h
    rcases hl : alistLookup c.resData u.name with _ | m
    · simp only [hl] at h
      cases h
      exact .inl rfl
    · simp only [hl] at h
      rcases hf : filterPeriodMap storage ceilOf parse m with kept | e'
      · simp only [hf] at h
        rcases hr : loadCopyUrls storage ceilOf parse rest c with tl | e''
        · simp only [hr] at h
          exact absurd h (by simp)
        · simp only [hr] at h
          cases h
          exact ih c e hr
      · simp only [hf] at h
        cases h
        exact .inr (filterPeriodMap_err storage ceilOf parse m e hf)

theorem load_existing_err (li : LoadInput) (e : PyError)
    (h : load_existing_fitbit_data li = .err e) :
    li.content = .err e ∨ e = .keyError ∨ e = .valueError := by
  unfold load_existing_fitbit_data at h
  by_cases hf : "fitbit-data.json" ∈ li.fileNames
  · rw [if_pos hf] at h
    rcases hc : li.content with current | e'
    · simp only [hc] at h
      rcases hg : guess_storage_date current with storage | e''
      · simp only [hg] at h
        rcases hy : loadCopyUrls storage ceilYear parseYearKey
            (fitbit_urls.filter (fun u => u.period == .year)) current with ys | ey
        · simp only [hy] at h
          rcases hm : loadCopyUrls storage ceilMonth parseMonthKey
              (fitbit_urls.filter (fun u => u.period == .month)) current with ms | em
          · simp only [hm] at h
            exact absurd h (by simp)
          · simp only [hm] at h
            cases h
            exact .inr (loadCopyUrls_err _ _ _ _ current e hm)
        · simp only [hy] at h
          cases h
          exact .inr (loadCopyUrls_err _ _ _ _ current e hy)
      · simp only [hg] at h
        cases h
        unfold guess_storage_date at hg
        rcases hg1 : guessFromUrls parseMonthKey floorMonth
            (fitbit_urls.filter (fun u => u.period == .month)) current with r1 | eg1
        · simp only [hg1] at hg
          rcases r1 with _ | dt
          · rcases hg2 : guessFromUrls parseYearKey floorYear
                (fitbit_urls.filter (fun u => u.period == .year)) current with r2 | eg2
            · simp only [hg2] at hg
              rcases r2 with _ | dt2 <;> exact absurd hg (by simp)
            · simp only [hg2] at hg
              have h9 : eg2 = e := by injection hg
              exact .inr (h9 ▸ guessFromUrls_err _ _ _ current eg2 hg2)
          · exact absurd hg (by simp)
        · simp only [hg1] at hg
          have h9 : eg1 = e := by injection hg
          exact .inr (h9 ▸ guessFromUrls_err _ _ _ current eg1 hg1)
    · simp only [hc] at h
      cases h
      exact .inl rfl
  · rw [if_neg hf] at h
    exact absurd h (by simp)

theorem create_files_ok_load (inp : CFInput) (st : QState) (sd : FitbitData)
    (h : load_existing_fitbit_data inp.load = .ok sd) :
    create_files inp st =
      match get_fitbit_data inp.env st sd with
      | (st', .ok d) => (st', .ok (.written d))
      | (st', .err .rateLimit) => (st', .ok (.countdown 900))
      | (st', .err e) => (st', .err e) := by
  unfold create_files
  simp only [h]

theorem create_files_attr_load (inp : CFInput) (st : QState)
    (h : load_existing_fitbit_data inp.load = .err .attributeError) :
    create_files inp st =
      match get_fitbit_data inp.env st emptyFitbitData with
      | (st', .ok d) => (st', .ok (.written d))
      | (st', .err .rateLimit) => (st', .ok (.countdown 900))
      | (st', .err e) => (st', .err e) := by
  unfold create_files
  simp only [h]

theorem create_files_bad_load (inp : CFInput) (st : QState) (e : PyError)
    (h : load_existing_fitbit_data inp.load = .err e) (hne : e ≠ .attributeError) :
    create_files inp st = (st, .err e) := by
  unfold create_files
  simp only [h]

/-! ## C4: non-rate-limit API errors are fatal and uncaught -/

/-- **C4**: A response carrying an explicit error payload (`'errors'`
present, `'success'` false) makes `fitbit_query` raise
`Exception(errors)`, and a malformed (non-JSON) body likewise raises, as
`ValueError`; `create_files` (which catches only `AttributeError` and
`RateLimitException`) lets every non-rate-limit error of the sync run
propagate to the caller unchanged, so in particular an error payload or a
malformed body at the profile query makes the whole `create_files` run fail
with exactly that error; and one `fitbit_query` invocation consults the
remote oracle at most once — its behaviour depends only on the oracle value
at the current call index — so the failed query is not retried
internally. -/
theorem api_error_propagates (env : Env) (st : QState) (n : String)
    (pk : Option String) (path : String) (t : Option DateTime) :
    ((∀ c, cacheLookup st.cache (dataKeyOf env path) = some c → ¬cacheUsable env c t) →
      (∀ s q errs, env.remote st.calls (dataKeyOf env path) = .resp s (some q) →
        ¬(s = 429 ∨ s = 504) → q.errors = some errs → q.success = some false →
        (fitbit_query env st n pk path t).2 = .err (.apiError errs)) ∧
      (∀ s, env.remote st.calls (dataKeyOf env path) = .resp s none →
        ¬(s = 429 ∨ s = 504) →
        (fitbit_query env st n pk path t).2 = .err .valueError)) ∧
    (∀ (inp : CFInput) (st0 st' : QState) (sd : FitbitData) (e : PyError),
      (load_existing_fitbit_data inp.load = .ok sd ∨
        (load_existing_fitbit_data inp.load = .err .attributeError ∧ sd = emptyFitbitData)) →
      get_fitbit_data inp.env st0 sd = (st', .err e) → e ≠ .rateLimit →
      create_files inp st0 = (st', .err e)) ∧
    (∀ (inp : CFInput) (st0 : QState) (sd : FitbitData) (s : Nat),
      (load_existing_fitbit_data inp.load = .ok sd ∨
        (load_existing_fitbit_data inp.load = .err .attributeError ∧ sd = emptyFitbitData)) →
      (∀ q errs,
        inp.env.remote st0.calls (dataKeyOf inp.env "/-/profile.json") = .resp s (some q) →
        ¬(s = 429 ∨ s = 504) → q.errors = some errs → q.success = some false →
        (create_files inp st0).2 = .err (.apiError errs)) ∧
      (inp.env.remote st0.calls (dataKeyOf inp.env "/-/profile.json") = .resp s none →
        ¬(s = 429 ∨ s = 504) →
        (create_files inp st0).2 = .err .valueError)) ∧
    (∀ env' : Env, env'.now = env.now → env'.ohUserId = env.ohUserId →
      (∀ k, env'.remote st.calls k = env.remote st.calls k) →
      fitbit_query env' st n pk path t = fitbit_query env st n pk path t) := by
  refine ⟨fun hno => ⟨?_, ?_⟩, ?_, ?_, ?_⟩
  · intro s q errs hr hs he hsu
    rw [fq_remote env st n pk path t hno]
    dsimp only
    unfold remoteResult
    simp only [hr]
    rw [if_neg hs]
    have hcond : q.errors.isSome ∧ q.success = some false := ⟨by rw [he]; rfl, hsu⟩
    rw [dif_pos hcond]
    simp [he]
  · intro s hr hs
    rw [fq_remote env st n pk path t hno]
    dsimp only
    unfold remoteResult
    simp only [hr]
    rw [if_neg hs]
  · intro inp st0 st' sd e hload hget hne
    rcases hload with h | ⟨h, rfl⟩
    · rw [create_files_ok_load inp st0 sd h, hget]
      rcases e with _ | errs | _ | _ | _
      · exact absurd rfl hne
      · rfl
      · rfl
      · rfl
      · rfl
    · rw [create_files_attr_load inp st0 h, hget]
      rcases e with _ | errs | _ | _ | _
      · exact absurd rfl hne
      · rfl
      · rfl
      · rfl
      · rfl
  · intro inp st0 sd s hload
    have hno : ∀ c, cacheLookup st0.cache (dataKeyOf inp.env "/-/profile.json") = some c →
        ¬cacheUsable inp.env c none := by
      intro c hc hu
      obtain ⟨-, t', ht', -⟩ := hu
      exact Option.noConfusion ht'
    constructor
    · intro q errs hr hs he hsu
      have hrr : remoteResult inp.env st0 (dataKeyOf inp.env "/-/profile.json") =
          .err (.apiError errs) := by
        unfold remoteResult
        simp only [hr]
        rw [if_neg hs]
        have hcond : q.errors.isSome ∧ q.success = some false := ⟨by rw [he]; rfl, hsu⟩
        rw [dif_pos hcond]
        simp [he]
      have hq : fitbit_query inp.env st0 "profile" none "/-/profile.json" none =
          (⟨remoteCache inp.env st0 (dataKeyOf inp.env "/-/profile.json") none,
            st0.calls + 1, st0.log ++ [⟨"profile", none, none, true⟩]⟩,
            .err (.apiError errs)) := by
        rw [fq_remote inp.env st0 "profile" none "/-/profile.json" none hno, hrr]
      have hgfd : get_fitbit_data inp.env st0 sd =
          (⟨remoteCache inp.env st0 (dataKeyOf inp.env "/-/profile.json") none,
            st0.calls + 1, st0.log ++ [⟨"profile", none, none, true⟩]⟩,
            .err (.apiError errs)) := by
        unfold get_fitbit_data
        rw [hq]
      rcases hload with h | ⟨h, rfl⟩
      · rw [create_files_ok_load inp st0 sd h, hgfd]
      · rw [create_files_attr_load inp st0 h, hgfd]
    · intro hr hs
      have hrr : remoteResult inp.env st0 (dataKeyOf inp.env "/-/profile.json") =
          .err .valueError := by
        unfold remoteResult
        simp only [hr]
        rw [if_neg hs]
      have hq : fitbit_query inp.env st0 "profile" none "/-/profile.json" none =
          (⟨remoteCache inp.env st0 (dataKeyOf inp.env "/-/profile.json") none,
            st0.calls + 1, st0.log ++ [⟨"profile", none, none, true⟩]⟩,
            .err .valueError) := by
        rw [fq_remote inp.env st0 "profile" none "/-/profile.json" none hno, hrr]
      have hgfd : get_fitbit_data inp.env st0 sd =
          (⟨remoteCache inp.env st0 (dataKeyOf inp.env "/-/profile.json") none,
            st0.calls + 1, st0.log ++ [⟨"profile", none, none, true⟩]⟩,
            .err .valueError) := by
        unfold get_fitbit_data
        rw [hq]
      rcases hload with h | ⟨h, rfl⟩
      · rw [create_files_ok_load inp st0 sd h, hgfd]
      · rw [create_files_attr_load inp st0 h, hgfd]
  · intro env' hnow hoh hrem
    have hdk : dataKeyOf env' path = dataKeyOf env path := by
      simp [dataKeyOf, hoh]
    have hrr : remoteResult env' st (dataKeyOf env path) =
        remoteResult env st (dataKeyOf env path) := by
      unfold remoteResult
      rw [hrem]
    have hrc : remoteCache env' st (dataKeyOf env path) t =
        remoteCache env st (dataKeyOf env path) t := by
      unfold remoteCache
      rw [hrr, hnow]
    rw [fq_eq, fq_eq, hdk]
    rcases hc : cacheLookup st.cache (dataKeyOf env path) with _ | c
    · simp only [hc]
      rw [hrr, hrc]
    · simp only [hc]
      have hud : cacheUsable env' c t ↔ cacheUsable env c t := by
        unfold cacheUsable
        rw [hnow]
      by_cases hu : cacheUsable env c t
      · rw [if_pos (hud.mpr hu), if_pos hu]
      · rw [if_neg (fun hh => hu (hud.mp hh)), if_neg hu]
        rw [hrr, hrc]

/-- A remote body with an explicit error payload, for the C4 witness. -/
def qrErrW : QueryResult := ⟨none, some 42, some false, 0⟩

def envErrW : Env := ⟨nowW, "oh", fun _ _ => .resp 200 (some qrErrW)⟩

/-- Inputs whose remote returns an explicit error payload, resp. a
malformed (empty) body, at every call, for the C4 witness. -/
def inpErrW : CFInput := ⟨envErrW, ⟨[], .ok emptyFitbitData⟩⟩

def envValW : Env := ⟨nowW, "oh", fun _ _ => .resp 200 none⟩

def inpValW : CFInput := ⟨envValW, ⟨[], .ok emptyFitbitData⟩⟩

theorem api_error_propagates_witness :
    (fitbit_query envErrW ⟨[], 0, []⟩ "profile" none "/-/profile.json" none).2 =
      .err (.apiError 42) ∧
    (create_files inpErrW ⟨[], 0, []⟩).2 = .err (.apiError 42) ∧
    (create_files inpValW ⟨[], 0, []⟩).2 = .err .valueError :=
  ⟨(api_error_propagates envErrW ⟨[], 0, []⟩ "profile" none "/-/profile.json" none).1
      (fun c hc => by simp [cacheLookup] at hc) |>.1
      200 qrErrW 42 rfl (by decide) rfl rfl,
    ((api_error_propagates envErrW ⟨[], 0, []⟩ "profile" none "/-/profile.json"
        none).2.2.1 inpErrW ⟨[], 0, []⟩ emptyFitbitData 200 (.inl (by decide))).1
      qrErrW 42 rfl (by decide) rfl rfl,
    ((api_error_propagates envValW ⟨[], 0, []⟩ "profile" none "/-/profile.json"
        none).2.2.1 inpValW ⟨[], 0, []⟩ emptyFitbitData 200 (.inl (by decide))).2
      rfl (by decide)⟩

/-! ## C3: rate-limit signals suspend, they never escape -/

/-- **C3**: A rate-limit signal (local limiter exhaustion, HTTP 429 — and
likewise 504) never escapes `create_files` as an error: whatever the inputs
(provided the external load step itself does not inject a
`RateLimitException`, which the source load path cannot raise),
`create_files` never results in a rate-limit error; when `get_fitbit_data`
stops with a rate-limit at state `st'`, `create_files` returns exactly
`{'countdown': 900}` with state `st'` — nothing is fetched or recorded
after the exhaustion point; and the query that hits the cap itself leaves
the cache unchanged, recording no partition. -/
theorem rate_limit_suspends :
    (∀ (inp : CFInput) (st : QState), inp.load.content ≠ .err .rateLimit →
      (create_files inp st).2 ≠ .err .rateLimit) ∧
    (∀ (inp : CFInput) (st st' : QState) (sd : FitbitData),
      (load_existing_fitbit_data inp.load = .ok sd ∨
        (load_existing_fitbit_data inp.load = .err .attributeError ∧ sd = emptyFitbitData)) →
      get_fitbit_data inp.env st sd = (st', .err .rateLimit) →
      create_files inp st = (st', .ok (.countdown 900))) ∧
    (∀ (env : Env) (st : QState) (n : String) (pk : Option String) (path : String)
        (t : Option DateTime),
      (∀ c, cacheLookup st.cache (dataKeyOf env path) = some c → ¬cacheUsable env c t) →
      (env.remote st.calls (dataKeyOf env path) = .limiterError ∨
        (∃ b, env.remote st.calls (dataKeyOf env path) = .resp 429 b) ∨
        (∃ b, env.remote st.calls (dataKeyOf env path) = .resp 504 b)) →
      fitbit_query env st n pk path t =
        (⟨st.cache, st.calls + 1, st.log ++ [⟨n, pk, t, true⟩]⟩, .err .rateLimit)) := by
  have hrl : ∀ (env : Env) (st : QState) (dk : String),
      (env.remote st.calls dk = .limiterError ∨
        (∃ b, env.remote st.calls dk = .resp 429 b) ∨
        (∃ b, env.remote st.calls dk = .resp 504 b)) →
      remoteResult env st dk = .err .rateLimit := by
    intro env st dk h
    unfold remoteResult
    rcases h with h | ⟨b, h⟩ | ⟨b, h⟩
    · rw [h]
    · simp [h]
    · simp [h]
  refine ⟨?_, ?_, ?_⟩
  · intro inp st hcontent hbad
    rcases hl : load_existing_fitbit_data inp.load with sd | e
    · rw [create_files_ok_load inp st sd hl] at hbad
      rcases hg : get_fitbit_data inp.env st sd with ⟨st', r⟩
      rw [hg] at hbad
      rcases r with d | e2
      · simp at hbad
      · rcases e2 with _ | errs | _ | _ | _ <;> simp at hbad
    · by_cases ha : e = .attributeError
      · subst ha
        rw [create_files_attr_load inp st hl] at hbad
        rcases hg : get_fitbit_data inp.env st emptyFitbitData with ⟨st', r⟩
        rw [hg] at hbad
        rcases r with d | e2
        · simp at hbad
        · rcases e2 with _ | errs | _ | _ | _ <;> simp at hbad
      · rw [create_files_bad_load inp st e hl ha] at hbad
        simp only at hbad
        have h2 : e = .rateLimit := by
          simpa using hbad
        subst h2
        rcases load_existing_err inp.load .rateLimit hl with h | h | h
        · exact hcontent h
        · exact PyError.noConfusion h
        · exact PyError.noConfusion h
  · intro inp st st' sd hload hget
    rcases hload with h | ⟨h, rfl⟩
    · rw [create_files_ok_load inp st sd h, hget]
    · rw [create_files_attr_load inp st h, hget]
  · intro env st n pk path t hno hout
    rw [fq_remote env st n pk path t hno]
    have h1 := hrl env st (dataKeyOf env path) hout
    rw [remoteCache_err env st (dataKeyOf env path) t .rateLimit h1, h1]

def env429W : Env := ⟨nowW, "oh", fun _ _ => .resp 429 none⟩

def inpW3 : CFInput := ⟨env429W, ⟨[], .ok emptyFitbitData⟩⟩

theorem rate_limit_suspends_witness :
    ((create_files inpW3 ⟨[], 0, []⟩).2 ≠ .err .rateLimit) ∧
    fitbit_query env429W ⟨[], 0, []⟩ "profile" none "/-/profile.json" none =
      (⟨[], 0 + 1, [] ++ [⟨"profile", none, none, true⟩]⟩, .err .rateLimit) :=
  ⟨rate_limit_suspends.1 inpW3 ⟨[], 0, []⟩ (by decide),
    rate_limit_suspends.2.2 env429W ⟨[], 0, []⟩ "profile" none "/-/profile.json" none
      (fun c hc => by simp [cacheLookup] at hc) (.inr (.inl ⟨none, rfl⟩))⟩

/-! ## C10: what loading prior output preserves, and how it fails -/

/-- **C10 counterexample**: A present but unreadable prior file (the
download/parse step raising `ValueError`) does *not* yield an empty mapping:
`create_files` propagates the error (only `AttributeError` is degraded to an
empty prior dataset), so "a missing or unreadable prior file yields an empty
mapping rather than an error" fails for every non-`AttributeError` failure. -/
theorem unreadable_prior_propagates_cex :
    create_files ⟨envW1, ⟨["fitbit-data.json"], .err .valueError⟩⟩ ⟨[], 0, []⟩ =
      (⟨[], 0, []⟩, .err .valueError) := by
  decide

/-- **C10 amended**: Loading prior output keeps the stored profile unchanged
in the returned data whenever the prior output contains one — even when the
staleness filter drops every calendar partition — so the identity check can
always compare against the previous identity; a missing prior file yields an
empty mapping, and an `AttributeError` during loading degrades to an empty
prior dataset inside `create_files`; any other load error propagates. -/
theorem prior_profile_preserved :
    (∀ (li : LoadInput) (current out : FitbitData),
      "fitbit-data.json" ∈ li.fileNames → li.content = .ok current →
      load_existing_fitbit_data li = .ok out → out.profile = current.profile) ∧
    (∀ li : LoadInput, "fitbit-data.json" ∉ li.fileNames →
      load_existing_fitbit_data li = .ok emptyFitbitData) ∧
    (∀ (inp : CFInput) (st : QState),
      "fitbit-data.json" ∈ inp.load.fileNames →
      inp.load.content = .err .attributeError →
      create_files inp st =
        match get_fitbit_data inp.env st emptyFitbitData with
        | (st', .ok d) => (st', .ok (.written d))
        | (st', .err .rateLimit) => (st', .ok (.countdown 900))
        | (st', .err e) => (st', .err e)) ∧
    (∀ (inp : CFInput) (st : QState) (e : PyError),
      "fitbit-data.json" ∈ inp.load.fileNames →
      inp.load.content = .err e → e ≠ .attributeError →
      create_files inp st = (st, .err e)) := by
  have hload_err : ∀ (li : LoadInput) (e : PyError),
      "fitbit-data.json" ∈ li.fileNames → li.content = .err e →
      load_existing_fitbit_data li = .err e := by
    intro li e hf hc
    unfold load_existing_fitbit_data
    rw [if_pos hf, hc]
  refine ⟨?_, ?_, ?_, ?_⟩
  · intro li current out hf hc hok
    unfold load_existing_fitbit_data at hok
    rw [if_pos hf, hc] at hok
    rcases hg : guess_storage_date current with storage | e
    · simp only [hg] at hok
      rcases hy : loadCopyUrls storage ceilYear parseYearKey
          (fitbit_urls.filter (fun u => u.period == .year)) current with ys | ey
      · simp only [hy] at hok
        rcases hm : loadCopyUrls storage ceilMonth parseMonthKey
            (fitbit_urls.filter (fun u => u.period == .month)) current with ms | em
        · simp only [hm] at hok
          have h2 : (⟨current.profile, ys ++ ms, []⟩ : FitbitData) = out := by
            simpa using hok
          rw [← h2]
        · simp only [hm] at hok
          exact absurd hok (by simp)
      · simp only [hy] at hok
        exact absurd hok (by simp)
    · simp only [hg] at hok
      exact absurd hok (by simp)
  · intro li hf
    unfold load_existing_fitbit_data
    rw [if_neg hf]
  · intro inp st hf hc
    exact create_files_attr_load inp st (hload_err inp.load .attributeError hf hc)
  · intro inp st e hf hc hne
    exact create_files_bad_load inp st e (hload_err inp.load e hf hc) hne

theorem prior_profile_preserved_witness :
    load_existing_fitbit_data ⟨[], .ok emptyFitbitData⟩ = .ok emptyFitbitData ∧
    create_files ⟨envW1, ⟨["fitbit-data.json"], .err .valueError⟩⟩ ⟨[], 0, []⟩ =
      (⟨[], 0, []⟩, .err .valueError) :=
  ⟨prior_profile_preserved.2.1 ⟨[], .ok emptyFitbitData⟩ (by decide),
    prior_profile_preserved.2.2.2 ⟨envW1, ⟨["fitbit-data.json"], .err .valueError⟩⟩
      ⟨[], 0, []⟩ .valueError (by decide) rfl (by decide)⟩

/-! ## C8 infrastructure: what the reload filter keeps -/

theorem alistLookup_none_iff {α : Type} (m : List (String × α)) (k : String) :
    alistLookup m k = none ↔ k ∉ m.map Prod.fst := by
  induction m with
  | nil => simp [alistLookup]
  | cons hd tl ih =>
    obtain ⟨k0, v0⟩ := hd
    by_cases h : k0 = k
    · subst h
      simp [alistLookup]
    · simp only [alistLookup, if_neg h, List.map_cons, List.mem_cons]
      rw [ih]
      constructor
      · intro h2 h3
        rcases h3 with h3 | h3
        · exact h h3.symm
        · exact h2 h3
      · intro h2 h3
        exact h2 (Or.inr h3)

theorem filterPeriodMap_keys_sub (storage : DateTime) (ceilOf : DateTime → DateTime)
    (parse : String → Option DateTime) :
    ∀ (m kept : List (String × QueryResult)),
      filterPeriodMap storage ceilOf parse m = .ok kept →
      ∀ k, k ∈ kept.map Prod.fst → k ∈ m.map Prod.fst := by
  intro m
  induction m with
  | nil =>
    intro kept h k hk
    rw [filterPeriodMap] at h
    cases h
    simp at hk
  | cons kv rest ih =>
    intro kept h k hk
    obtain ⟨k0, v0⟩ := kv
    rw [filterPeriodMap] at h
    rcases hp : parse k0 with _ | kd
    · simp only [hp] at h
      exact absurd h (by simp)
    · simp only [hp] at h
      rcases hr : filterPeriodMap storage ceilOf parse rest with r | e
      · simp only [hr] at h
        by_cases hcond : storage.toHours - (ceilOf kd).toHours < STORAGE_MIN
        · rw [if_pos hcond] at h
          cases h
          simp only [List.map_cons, List.mem_cons]
          exact Or.inr (ih kept hr k hk)
        · rw [if_neg hcond] at h
          cases h
          simp only [List.map_cons, List.mem_cons] at hk ⊢
          rcases hk with h2 | h2
          · exact Or.inl h2
          · exact Or.inr (ih r hr k h2)
      · simp only [hr] at h
        exact absurd h (by simp)

theorem filterPeriodMap_lookup (storage : DateTime) (ceilOf : DateTime → DateTime)
    (parse : String → Option DateTime) :
    ∀ (m kept : List (String × QueryResult)),
      (m.map Prod.fst).Nodup →
      filterPeriodMap storage ceilOf parse m = .ok kept →
      ∀ k v, alistLookup kept k = some v ↔
        (alistLookup m k = some v ∧ ∃ kd, parse k = some kd ∧
          ¬(storage.toHours - (ceilOf kd).toHours < STORAGE_MIN)) := by
  intro m
  induction m with
  | nil =>
    intro kept hnd h k v
    rw [filterPeriodMap] at h
    cases h
    simp [alistLookup]
  | cons kv rest ih =>
    intro kept hnd h k v
    obtain ⟨k0, v0⟩ := kv
    rw [filterPeriodMap] at h
    rcases hp : parse k0 with _ | kd
    · simp only [hp] at h
      exact absurd h (by simp)
    · simp only [hp] at h
      rcases hr : filterPeriodMap storage ceilOf parse rest with r | e
      · simp only [hr] at h
        have hnd1 : (k0 :: rest.map Prod.fst).Nodup := by
          rw [List.map_cons] at hnd
          exact hnd
        have hnd' : (rest.map Prod.fst).Nodup := (List.nodup_cons.mp hnd1).2
        have hk0 : k0 ∉ rest.map Prod.fst := (List.nodup_cons.mp hnd1).1
        by_cases hcond : storage.toHours - (ceilOf kd).toHours < STORAGE_MIN
        · rw [if_pos hcond] at h
          cases h
          by_cases hk : k0 = k
          · subst hk
            have hnone : alistLookup kept k0 = none := by
              rw [alistLookup_none_iff]
              intro hmem
              exact hk0 (filterPeriodMap_keys_sub storage ceilOf parse rest kept hr k0 hmem)
            rw [hnone]
            constructor
            · intro h2
              exact absurd h2 (by simp)
            · rintro ⟨h2, kd', hkd', hcond'⟩
              simp only [alistLookup, if_pos rfl] at h2
              rw [hp] at hkd'
              obtain rfl : kd = kd' := by simpa using hkd'
              exact absurd hcond hcond'
          · rw [ih kept hnd' hr k v]
            constructor
            · rintro ⟨h2, h3⟩
              refine ⟨?_, h3⟩
              simp only [alistLookup, if_neg hk]
              exact h2
            · rintro ⟨h2, h3⟩
              simp only [alistLookup, if_neg hk] at h2
              exact ⟨h2, h3⟩
        · rw [if_neg hcond] at h
          cases h
          by_cases hk : k0 = k
          · subst hk
            constructor
            · intro h2
              simp only [alistLookup, if_pos rfl] at h2
              obtain rfl : v0 = v := by simpa using h2
              exact ⟨by simp [alistLookup], kd, hp, hcond⟩
            · rintro ⟨h2, -⟩
              simp only [alistLookup, if_pos rfl] at h2 ⊢
              exact h2
          · constructor
            · intro h2
              simp only [alistLookup, if_neg hk] at h2
              rw [ih r hnd' hr k v] at h2
              refine ⟨?_, h2.2⟩
              simp only [alistLookup, if_neg hk]
              exact h2.1
            · rintro ⟨h2, h3⟩
              simp only [alistLookup, if_neg hk] at h2
              simp only [alistLookup, if_neg hk]
              rw [ih r hnd' hr k v]
              exact ⟨h2, h3⟩
      · simp only [hr] at h
        exact absurd h (by simp)

theorem loadCopyUrls_names_none (storage : DateTime) (ceilOf : DateTime → DateTime)
    (parse : String → Option DateTime) :
    ∀ (urls : List FitbitUrl) (c : FitbitData) (entries : List (String × List (String × QueryResult))),
      loadCopyUrls storage ceilOf parse urls c = .ok entries →
      ∀ nm, nm ∉ urls.map (fun u => u.name) → alistLookup entries nm = none := by
  intro urls
  induction urls with
  | nil =>
    intro c entries h nm hnm
    rw [loadCopyUrls] at h
    cases h
    rfl
  | cons u rest ih =>
    intro c entries h nm hnm
    rw [loadCopyUrls] at h
    rcases hl : alistLookup c.resData u.name with _ | m
    · simp only [hl] at h
      exact absurd h (by simp)
    · simp only [hl] at h
      rcases hf : filterPeriodMap storage ceilOf parse m with kept | e
      · simp only [hf] at h
        rcases hr : loadCopyUrls storage ceilOf parse rest c with tailE | e2
        · simp only [hr] at h
          have hnm1 : nm ≠ u.name := by
            intro hh
            exact hnm (by simp [hh])
          have hnm2 : nm ∉ rest.map (fun u => u.name) := by
            intro hh
            exact hnm (by simp [hh])
          by_cases hkept : kept.isEmpty
          · rw [if_pos hkept] at h
            cases h
            exact ih c entries hr nm hnm2
          · rw [if_neg hkept] at h
            cases h
            have hne2 : u.name ≠ nm := fun hh => hnm1 hh.symm
            simp only [alistLookup, if_neg hne2]
            exact ih c tailE hr nm hnm2
        · simp only [hr] at h
          exact absurd h (by simp)
      · simp only [hf] at h
        exact absurd h (by simp)

theorem loadCopyUrls_lookup (storage : DateTime) (ceilOf : DateTime → DateTime)
    (parse : String → Option DateTime) :
    ∀ (urls : List FitbitUrl) (c : FitbitData) (entries : List (String × List (String × QueryResult))),
      (urls.map (fun u => u.name)).Nodup →
      loadCopyUrls storage ceilOf parse urls c = .ok entries →
      ∀ u ∈ urls, ∃ m kept, alistLookup c.resData u.name = some m ∧
        filterPeriodMap storage ceilOf parse m = .ok kept ∧
        alistLookup entries u.name = (if kept.isEmpty then none else some kept) := by
  intro urls
  induction urls with
  | nil =>
    intro c entries hnd h u hu
    simp at hu
  | cons u0 rest ih =>
    intro c entries hnd h u hu
    rw [loadCopyUrls] at h
    rcases hl : alistLookup c.resData u0.name with _ | m0
    · simp only [hl] at h
      exact absurd h (by simp)
    · simp only [hl] at h
      rcases hf : filterPeriodMap storage ceilOf parse m0 with kept0 | e
      · simp only [hf] at h
        rcases hr : loadCopyUrls storage ceilOf parse rest c with tailE | e2
        · simp only [hr] at h
          have hnd1 : (u0.name :: rest.map (fun u => u.name)).Nodup := by
            rw [List.map_cons] at hnd
            exact hnd
          have hnd' : (rest.map (fun u => u.name)).Nodup := (List.nodup_cons.mp hnd1).2
          have hu0 : u0.name ∉ rest.map (fun u => u.name) := (List.nodup_cons.mp hnd1).1
          rcases List.mem_cons.mp hu with rfl | hu2
          · refine ⟨m0, kept0, hl, hf, ?_⟩
            by_cases hkept : kept0.isEmpty
            · rw [if_pos hkept] at h
              cases h
              rw [if_pos hkept]
              exact loadCopyUrls_names_none storage ceilOf parse rest c entries hr u.name hu0
            · rw [if_neg hkept] at h
              cases h
              rw [if_neg hkept]
              simp [alistLookup]
          · obtain ⟨m, kept, hm, hk, hlook⟩ := ih c tailE hnd' hr u hu2
            refine ⟨m, kept, hm, hk, ?_⟩
            have hne : u0.name ≠ u.name := by
              intro hh
              exact hu0 (by rw [hh]; exact List.mem_map_of_mem _ hu2)
            by_cases hkept : kept0.isEmpty
            · rw [if_pos hkept] at h
              cases h
              exact hlook
            · rw [if_neg hkept] at h
              cases h
              simp only [alistLookup, if_neg hne]
              exact hlook
        · simp only [hr] at h
          exact absurd h (by simp)
      · simp only [hf] at h
        exact absurd h (by simp)

/-! ## C8 infrastructure: the guessed storage date comes from a maximal key -/

theorem maxDT_mem (d : DateTime) (ds : List DateTime) : maxDT d ds ∈ d :: ds := by
  induction ds generalizing d with
  | nil => simp [maxDT]
  | cons d2 rest ih =>
    unfold maxDT
    simp only [List.foldl_cons]
    by_cases h : d2.toHours > d.toHours
    · rw [if_pos h]
      have h2 := ih d2
      unfold maxDT at h2
      rcases List.mem_cons.mp h2 with h3 | h3
      · simp [h3]
      · simp [List.mem_cons_of_mem, h3]
    · rw [if_neg h]
      have h2 := ih d
      unfold maxDT at h2
      rcases List.mem_cons.mp h2 with h3 | h3
      · simp [h3]
      · simp [List.mem_cons_of_mem, h3]

theorem maxDT_ub (d : DateTime) (ds : List DateTime) :
    ∀ x ∈ d :: ds, x.toHours ≤ (maxDT d ds).toHours := by
  induction ds generalizing d with
  | nil =>
    intro x hx
    rcases List.mem_cons.mp hx with rfl | hx
    · exact le_refl _
    · simp at hx
  | cons d2 rest ih =>
    intro x hx
    unfold maxDT
    simp only [List.foldl_cons]
    by_cases h : d2.toHours > d.toHours
    · rw [if_pos h]
      have h2 := ih d2
      unfold maxDT at h2
      rcases List.mem_cons.mp hx with rfl | hx2
      · exact le_trans (le_of_lt h) (h2 d2 (List.mem_cons_self _ _))
      · exact h2 x hx2
    · rw [if_neg h]
      have h2 := ih d
      unfold maxDT at h2
      rcases List.mem_cons.mp hx with rfl | hx2
      · exact h2 x (List.mem_cons_self _ _)
      · rcases List.mem_cons.mp hx2 with rfl | hx3
        · exact le_trans (le_of_not_lt h) (h2 d (List.mem_cons_self _ _))
        · exact h2 x (List.mem_cons_of_mem _ hx3)

theorem mapM_some_of_mem {α β : Type} (f : α → Option β) :
    ∀ (ks : List α) (ds : List β), ks.mapM f = some ds →
      (∀ d ∈ ds, ∃ k ∈ ks, f k = some d) ∧ (∀ k ∈ ks, ∃ d ∈ ds, f k = some d) := by
  intro ks
  induction ks with
  | nil =>
    intro ds h
    simp only [List.mapM_nil] at h
    cases h
    constructor
    · intro d hd
      simp at hd
    · intro k hk
      simp at hk
  | cons k0 rest ih =>
    intro ds h
    simp only [List.mapM_cons] at h
    rcases hf : f k0 with _ | d0
    · rw [hf] at h
      simp at h
    · rw [hf] at h
      rcases hr : rest.mapM f with _ | ds0
      · rw [hr] at h
        simp at h
      · rw [hr] at h
        simp only [Option.pure_def, Option.bind_eq_bind, Option.some_bind] at h
        cases h
        obtain ⟨h1, h2⟩ := ih ds0 hr
        constructor
        · intro d hd
          rcases List.mem_cons.mp hd with rfl | hd2
          · exact ⟨k0, List.mem_cons_self _ _, hf⟩
          · obtain ⟨k, hk, hfk⟩ := h1 d hd2
            exact ⟨k, List.mem_cons_of_mem _ hk, hfk⟩
        · intro k hk
          rcases List.mem_cons.mp hk with rfl | hk2
          · exact ⟨d0, List.mem_cons_self _ _, hf⟩
          · obtain ⟨d, hd, hfd⟩ := h2 k hk2
            exact ⟨d, List.mem_cons_of_mem _ hd, hfd⟩

theorem guessFromUrls_some_max (parse : String → Option DateTime)
    (floorOf : DateTime → DateTime) :
    ∀ (urls : List FitbitUrl) (c : FitbitData) (dt : DateTime),
      guessFromUrls parse floorOf urls c = .ok (some dt) →
      ∃ u ∈ urls, ∃ m vmax k, alistLookup c.resData u.name = some m ∧
        k ∈ m.map Prod.fst ∧ parse k = some vmax ∧
        (∀ k' ∈ m.map Prod.fst, ∀ kd', parse k' = some kd' →
          kd'.toHours ≤ vmax.toHours) ∧
        dt = floorOf vmax := by
  intro urls
  induction urls with
  | nil =>
    intro c dt h
    simp [guessFromUrls] at h
  | cons u0 rest ih =>
    intro c dt h
    rw [guessFromUrls] at h
    rcases hl : alistLookup c.resData u0.name with _ | m
    · simp only [hl] at h
      exact absurd h (by simp)
    · simp only [hl] at h
      rcases m with _ | ⟨kv, m'⟩
      · obtain ⟨u, hu, rest'⟩ := ih c dt h
        exact ⟨u, List.mem_cons_of_mem _ hu, rest'⟩
      · rcases hm : ((kv :: m').map Prod.fst).mapM parse with _ | ds
        · simp only [hm] at h
          exact absurd h (by simp)
        · simp only [hm] at h
          rcases ds with _ | ⟨d, ds'⟩
          · exact absurd h (by simp)
          · have hdt : dt = floorOf (maxDT d ds') := by
              have h2 : PyResult.ok (Option.some (floorOf (maxDT d ds'))) =
                  PyResult.ok (some dt) := h
              simpa using h2.symm
            obtain ⟨hmem, hall⟩ := mapM_some_of_mem parse ((kv :: m').map Prod.fst) (d :: ds') hm
            obtain ⟨k, hk, hpk⟩ := hmem (maxDT d ds') (maxDT_mem d ds')
            refine ⟨u0, List.mem_cons_self _ _, kv :: m', maxDT d ds', k, hl, hk, hpk, ?_, hdt⟩
            intro k' hk' kd' hpk'
            obtain ⟨d2, hd2, hfd2⟩ := hall k' hk'
            obtain rfl : kd' = d2 := by
              rw [hpk'] at hfd2
              simpa using hfd2
            exact maxDT_ub d ds' _ hd2

theorem floorMonth_le_ceilMonth (t : DateTime) :
    (floorMonth t).toHours ≤ (ceilMonth t).toHours := by
  unfold floorMonth ceilMonth DateTime.toHours
  simp only
  omega

theorem floorYear_le_ceilYear (t : DateTime) :
    (floorYear t).toHours ≤ (ceilYear t).toHours := by
  unfold floorYear ceilYear DateTime.toHours
  simp only
  have h0 : daysBeforeMonth t.year 1 = 0 := rfl
  omega

theorem load_existing_decomp (li : LoadInput) (current out : FitbitData)
    (storage : DateTime)
    (hfile : "fitbit-data.json" ∈ li.fileNames)
    (hcontent : li.content = .ok current)
    (hguess : guess_storage_date current = .ok storage)
    (hload : load_existing_fitbit_data li = .ok out) :
    ∃ ys ms,
      loadCopyUrls storage ceilYear parseYearKey
        (fitbit_urls.filter (fun u => u.period == .year)) current = .ok ys ∧
      loadCopyUrls storage ceilMonth parseMonthKey
        (fitbit_urls.filter (fun u => u.period == .month)) current = .ok ms ∧
      out = ⟨current.profile, ys ++ ms, []⟩ := by
  unfold load_existing_fitbit_data at hload
  rw [if_pos hfile, hcontent] at hload
  simp only [hguess] at hload
  rcases hy : loadCopyUrls storage ceilYear parseYearKey
      (fitbit_urls.filter (fun u => u.period == .year)) current with ys | ey
  · simp only [hy] at hload
    rcases hm : loadCopyUrls storage ceilMonth parseMonthKey
        (fitbit_urls.filter (fun u => u.period == .month)) current with ms | em
    · simp only [hm] at hload
      refine ⟨ys, ms, rfl, rfl, ?_⟩
      have h2 : (⟨current.profile, ys ++ ms, []⟩ : FitbitData) = out := by
        simpa using hload
      exact h2.symm
    · simp only [hm] at hload
      exact absurd hload (by simp)
  · simp only [hy] at hload
    exact absurd hload (by simp)

theorem yearNames_nodup :
    ((fitbit_urls.filter (fun u => u.period == .year)).map (fun u => u.name)).Nodup := by
  decide

theorem monthNames_nodup :
    ((fitbit_urls.filter (fun u => u.period == .month)).map (fun u => u.name)).Nodup := by
  decide

theorem year_not_month_name :
    ∀ u ∈ fitbit_urls.filter (fun u => u.period == .year),
      u.name ∉ (fitbit_urls.filter (fun u => u.period == .month)).map (fun u => u.name) := by
  decide

theorem month_not_year_name :
    ∀ u ∈ fitbit_urls.filter (fun u => u.period == .month),
      u.name ∉ (fitbit_urls.filter (fun u => u.period == .year)).map (fun u => u.name) := by
  decide

/-- **C8 amended**: In a loaded prior output, a stored partition is re-used
(trusted) if and only if it parses and its period end is at least
`STORAGE_MIN` before the guessed storage date.  The period key that
*determines* the guessed storage date — a maximal month key of the first
month-granularity resource with stored keys, or, when no month resource has
keys, a maximal year key of the first year-granularity resource with keys —
is always excluded (hence re-fetched); the most recent key of *another*
resource or granularity may still be re-used when it ends early enough, so
the unrestricted claim fails. -/
theorem storage_trust_characterization
    (li : LoadInput) (current out : FitbitData) (storage : DateTime)
    (hfile : "fitbit-data.json" ∈ li.fileNames)
    (hcontent : li.content = .ok current)
    (hguess : guess_storage_date current = .ok storage)
    (hload : load_existing_fitbit_data li = .ok out)
    (hnodup : ∀ u ∈ fitbit_urls,
      (((alistLookup current.resData u.name).getD []).map Prod.fst).Nodup) :
    (∀ u ∈ fitbit_urls.filter (fun u => u.period == .year), ∀ k v,
      alistLookup (out.getRes u.name) k = some v ↔
        (∃ m, alistLookup current.resData u.name = some m ∧ alistLookup m k = some v ∧
          ∃ kd, parseYearKey k = some kd ∧
            ¬(storage.toHours - (ceilYear kd).toHours < STORAGE_MIN))) ∧
    (∀ u ∈ fitbit_urls.filter (fun u => u.period == .month), ∀ k v,
      alistLookup (out.getRes u.name) k = some v ↔
        (∃ m, alistLookup current.resData u.name = some m ∧ alistLookup m k = some v ∧
          ∃ kd, parseMonthKey k = some kd ∧
            ¬(storage.toHours - (ceilMonth kd).toHours < STORAGE_MIN))) ∧
    ((∃ dt, guessFromUrls parseMonthKey floorMonth
        (fitbit_urls.filter (fun u => u.period == .month)) current = .ok (some dt)) →
      ∃ u ∈ fitbit_urls.filter (fun u => u.period == .month), ∃ m vmax k,
        alistLookup current.resData u.name = some m ∧
        k ∈ m.map Prod.fst ∧ parseMonthKey k = some vmax ∧
        (∀ k' ∈ m.map Prod.fst, ∀ kd', parseMonthKey k' = some kd' →
          kd'.toHours ≤ vmax.toHours) ∧
        storage = floorMonth vmax ∧
        alistLookup (out.getRes u.name) k = none) ∧
    ((guessFromUrls parseMonthKey floorMonth
        (fitbit_urls.filter (fun u => u.period == .month)) current = .ok none) →
      (∃ dt, guessFromUrls parseYearKey floorYear
          (fitbit_urls.filter (fun u => u.period == .year)) current = .ok (some dt)) →
      ∃ u ∈ fitbit_urls.filter (fun u => u.period == .year), ∃ m vmax k,
        alistLookup current.resData u.name = some m ∧
        k ∈ m.map Prod.fst ∧ parseYearKey k = some vmax ∧
        (∀ k' ∈ m.map Prod.fst, ∀ kd', parseYearKey k' = some kd' →
          kd'.toHours ≤ vmax.toHours) ∧
        storage = floorYear vmax ∧
        alistLookup (out.getRes u.name) k = none) := by
  obtain ⟨ys, ms, hy, hm, hout⟩ :=
    load_existing_decomp li current out storage hfile hcontent hguess hload
  subst hout
  have hresY : ∀ u ∈ fitbit_urls.filter (fun u => u.period == .year),
      ∃ m kept, alistLookup current.resData u.name = some m ∧
        filterPeriodMap storage ceilYear parseYearKey m = .ok kept ∧
        (FitbitData.getRes ⟨current.profile, ys ++ ms, []⟩ u.name) =
          (if kept.isEmpty then [] else kept) := by
    intro u hu
    obtain ⟨m, kept, hlm, hfk, hlook⟩ :=
      loadCopyUrls_lookup storage ceilYear parseYearKey
        (fitbit_urls.filter (fun u => u.period == .year)) current ys
        yearNames_nodup hy u hu
    refine ⟨m, kept, hlm, hfk, ?_⟩
    unfold FitbitData.getRes
    simp only
    rw [alistLookup_append, hlook]
    by_cases hk : kept.isEmpty
    · rw [if_pos hk, if_pos hk]
      have hnone : alistLookup ms u.name = none :=
        loadCopyUrls_names_none storage ceilMonth parseMonthKey
          (fitbit_urls.filter (fun u => u.period == .month)) current ms hm u.name
          (year_not_month_name u hu)
      rw [hnone]
      rfl
    · rw [if_neg hk, if_neg hk]
      rfl
  have hresM : ∀ u ∈ fitbit_urls.filter (fun u => u.period == .month),
      ∃ m kept, alistLookup current.resData u.name = some m ∧
        filterPeriodMap storage ceilMonth parseMonthKey m = .ok kept ∧
        (FitbitData.getRes ⟨current.profile, ys ++ ms, []⟩ u.name) =
          (if kept.isEmpty then [] else kept) := by
    intro u hu
    obtain ⟨m, kept, hlm, hfk, hlook⟩ :=
      loadCopyUrls_lookup storage ceilMonth parseMonthKey
        (fitbit_urls.filter (fun u => u.period == .month)) current ms
        monthNames_nodup hm u hu
    refine ⟨m, kept, hlm, hfk, ?_⟩
    unfold FitbitData.getRes
    simp only
    rw [alistLookup_append]
    have hnone : alistLookup ys u.name = none :=
      loadCopyUrls_names_none storage ceilYear parseYearKey
        (fitbit_urls.filter (fun u => u.period == .year)) current ys hy u.name
        (month_not_year_name u hu)
    rw [hnone, hlook]
    by_cases hk : kept.isEmpty
    · rw [if_pos hk, if_pos hk]
      rfl
    · rw [if_neg hk, if_neg hk]
      rfl
  have hiffGen : ∀ (ceilOf : DateTime → DateTime) (parse : String → Option DateTime)
      (u : FitbitUrl), u ∈ fitbit_urls →
      (∃ m kept, alistLookup current.resData u.name = some m ∧
        filterPeriodMap storage ceilOf parse m = .ok kept ∧
        (FitbitData.getRes ⟨current.profile, ys ++ ms, []⟩ u.name) =
          (if kept.isEmpty then [] else kept)) →
      ∀ k v, alistLookup ((⟨current.profile, ys ++ ms, []⟩ : FitbitData).getRes u.name) k
          = some v ↔
        (∃ m, alistLookup current.resData u.name = some m ∧ alistLookup m k = some v ∧
          ∃ kd, parse k = some kd ∧
            ¬(storage.toHours - (ceilOf kd).toHours < STORAGE_MIN)) := by
    rintro ceilOf parse u hu ⟨m, kept, hlm, hfk, hres⟩ k v
    have hmnd : (m.map Prod.fst).Nodup := by
      have h2 := hnodup u hu
      rw [hlm] at h2
      simpa using h2
    have hfl := filterPeriodMap_lookup storage ceilOf parse m kept hmnd hfk k v
    rw [hres]
    by_cases hk : kept.isEmpty
    · rw [if_pos hk]
      have hkept : kept = [] := by
        cases kept
        · rfl
        · simp [List.isEmpty] at hk
      constructor
      · intro h2
        exact absurd h2 (by simp [alistLookup])
      · rintro ⟨m', hm', hv, kd, hkd, hcond⟩
        obtain rfl : m = m' := by
          rw [hlm] at hm'
          simpa using hm'
        have h3 := hfl.mpr ⟨hv, kd, hkd, hcond⟩
        rw [hkept] at h3
        exact absurd h3 (by simp [alistLookup])
    · rw [if_neg hk]
      constructor
      · intro h2
        obtain ⟨hv, kd, hkd, hcond⟩ := hfl.mp h2
        exact ⟨m, hlm, hv, kd, hkd, hcond⟩
      · rintro ⟨m', hm', hv, kd, hkd, hcond⟩
        obtain rfl : m = m' := by
          rw [hlm] at hm'
          simpa using hm'
        exact hfl.mpr ⟨hv, kd, hkd, hcond⟩
  have hyearIff := fun u hu => hiffGen ceilYear parseYearKey u
    (List.mem_of_mem_filter hu) (hresY u hu)
  have hmonthIff := fun u hu => hiffGen ceilMonth parseMonthKey u
    (List.mem_of_mem_filter hu) (hresM u hu)
  refine ⟨hyearIff, hmonthIff, ?_, ?_⟩
  · rintro ⟨dt, hgm⟩
    have hsto : dt = storage := by
      unfold guess_storage_date at hguess
      simp only [hgm] at hguess
      simpa using hguess
    obtain ⟨u, hu, m, vmax, k, hlm, hk, hpk, hub, hdt⟩ :=
      guessFromUrls_some_max parseMonthKey floorMonth
        (fitbit_urls.filter (fun u => u.period == .month)) current dt hgm
    have hsto2 : storage = floorMonth vmax := by
      rw [← hsto, hdt]
    refine ⟨u, hu, m, vmax, k, hlm, hk, hpk, hub, hsto2, ?_⟩
    rcases hlk : alistLookup ((⟨current.profile, ys ++ ms, []⟩ : FitbitData).getRes u.name) k
      with _ | v
    · rfl
    · exfalso
      obtain ⟨m', hm', hv, kd, hkd, hcond⟩ := (hmonthIff u hu k v).mp hlk
      obtain rfl : vmax = kd := by
        rw [hpk] at hkd
        simpa using hkd
      apply hcond
      rw [hsto2]
      have h5 := floorMonth_le_ceilMonth vmax
      simp only [STORAGE_MIN]
      linarith
  · intro hnone
    rintro ⟨dt, hgy⟩
    have hsto : dt = storage := by
      unfold guess_storage_date at hguess
      simp only [hnone, hgy] at hguess
      simpa using hguess
    obtain ⟨u, hu, m, vmax, k, hlm, hk, hpk, hub, hdt⟩ :=
      guessFromUrls_some_max parseYearKey floorYear
        (fitbit_urls.filter (fun u => u.period == .year)) current dt hgy
    have hsto2 : storage = floorYear vmax := by
      rw [← hsto, hdt]
    refine ⟨u, hu, m, vmax, k, hlm, hk, hpk, hub, hsto2, ?_⟩
    rcases hlk : alistLookup ((⟨current.profile, ys ++ ms, []⟩ : FitbitData).getRes u.name) k
      with _ | v
    · rfl
    · exfalso
      obtain ⟨m', hm', hv, kd, hkd, hcond⟩ := (hyearIff u hu k v).mp hlk
      obtain rfl : vmax = kd := by
        rw [hpk] at hkd
        simpa using hkd
      apply hcond
      rw [hsto2]
      have h5 := floorYear_le_ceilYear vmax
      simp only [STORAGE_MIN]
      linarith

/-- Stored data in which the first month resource (`heart`) holds one month
key, 2021-03, while the first year resource holds one year key, 2019. -/
def c8current : FitbitData :=
  ⟨none,
    [("heart", [("2021-03", qrW)]), ("weight-log", []),
     ("tracker-activity-calories", [("2019", qrW)]), ("tracker-calories", []),
     ("tracker-distance", []), ("tracker-elevation", []), ("tracker-floors", []),
     ("tracker-minutes-fairly-active", []), ("tracker-minutes-lightly-active", []),
     ("tracker-minutes-sedentary", []), ("tracker-minutes-very-active", []),
     ("tracker-steps", []), ("weight", []), ("sleep-awakenings", []),
     ("sleep-efficiency", []), ("sleep-minutes-after-wakeup", []),
     ("sleep-minutes", []), ("awake-minutes", []), ("minutes-to-sleep", []),
     ("sleep-start-time", []), ("time-in-bed", [])], []⟩

def c8li : LoadInput := ⟨["fitbit-data.json"], .ok c8current⟩

def c8out : FitbitData :=
  match load_existing_fitbit_data c8li with
  | .ok d => d
  | .err _ => emptyFitbitData

/-- **C8 counterexample**: With the stored data of `c8current`, the month
resource sets the guessed storage date to 2021-03-01, and the year
resource's only — hence most recent — year key `"2019"` ends more than
`STORAGE_MIN` before that date: it is *kept* in the trusted reloaded data
(and will therefore be skipped, not re-fetched, by the next run),
contradicting "for every non-empty prior output, the most recent completed
period key of a calendar granularity is excluded from the trusted reloaded
data and is therefore re-fetched on every run". -/
theorem most_recent_year_key_reloaded_cex :
    guess_storage_date c8current = .ok ⟨2021, 3, 1, 0⟩ ∧
    load_existing_fitbit_data c8li = .ok c8out ∧
    alistLookup (c8out.getRes "tracker-activity-calories") "2019" = some qrW ∧
    alistLookup (c8out.getRes "heart") "2021-03" = none := by
  decide

theorem storage_trust_characterization_witness :
    ∃ u ∈ fitbit_urls.filter (fun u => u.period == .month), ∃ m vmax k,
      alistLookup c8current.resData u.name = some m ∧
      k ∈ m.map Prod.fst ∧ parseMonthKey k = some vmax ∧
      (∀ k' ∈ m.map Prod.fst, ∀ kd', parseMonthKey k' = some kd' →
        kd'.toHours ≤ vmax.toHours) ∧
      (⟨2021, 3, 1, 0⟩ : DateTime) = floorMonth vmax ∧
      alistLookup (c8out.getRes u.name) k = none :=
  (storage_trust_characterization c8li c8current c8out ⟨2021, 3, 1, 0⟩
      (by decide) rfl (by decide) (by decide) (by decide)).2.2.1
    ⟨⟨2021, 3, 1, 0⟩, by decide⟩

/-! ## C1: a changed remote identity discards the whole prior output -/

/-- **C1**: When the freshly resolved profile carries an `encodedId` that
differs from the one stored in the prior output, the run behaves exactly as
if the prior output did not exist: `get_fitbit_data` on that prior output
equals `get_fitbit_data` on the empty dataset (same result, same cache and
query log), so the returned output contains none of the old identity's
partitions — only data fetched under the new identity. -/
theorem identity_change_discards_prior (env : Env) (st : QState) (prior : FitbitData)
    (p : Profile) (s : Nat) (q : QueryResult) (usr : UserInfo)
    (hr : env.remote st.calls (dataKeyOf env "/-/profile.json") = .resp s (some q))
    (hs : ¬(s = 429 ∨ s = 504))
    (he : ¬(q.errors.isSome ∧ q.success = some false))
    (hu : q.user = some usr)
    (hp : prior.profile = some p)
    (hne : p.encodedId ≠ usr.encodedId) :
    get_fitbit_data env st prior = get_fitbit_data env st emptyFitbitData := by
  have hno : ∀ c, cacheLookup st.cache (dataKeyOf env "/-/profile.json") = some c →
      ¬cacheUsable env c none := by
    intro c hc hu2
    obtain ⟨-, t', ht', -⟩ := hu2
    exact Option.noConfusion ht'
  have hrr : remoteResult env st (dataKeyOf env "/-/profile.json") = .ok q := by
    unfold remoteResult
    simp only [hr]
    rw [if_neg hs]
    exact dif_neg he
  have hq : fitbit_query env st "profile" none "/-/profile.json" none =
      (⟨remoteCache env st (dataKeyOf env "/-/profile.json") none, st.calls + 1,
        st.log ++ [⟨"profile", none, none, true⟩]⟩, .ok q) := by
    rw [fq_remote env st "profile" none "/-/profile.json" none hno, hrr]
  unfold get_fitbit_data
  rw [hq]
  simp only [hu, hp, emptyFitbitData]
  rw [if_pos hne]

/-- Prior data carrying the old identity `OLD`, for the C1 witness. -/
def priorC1 : FitbitData :=
  ⟨some ⟨0, "OLD", 0, ⟨2021, 5, 3, 0⟩, 0, 0, 0⟩, [("heart", [("2021-04", qrW)])], []⟩

def qrNewW : QueryResult :=
  ⟨some ⟨"NEW", ⟨2021, 5, 3, 0⟩, 1, 2, 3, 4, 5⟩, none, none, 7⟩

def envC1 : Env := ⟨nowW, "oh", fun _ _ => .resp 200 (some qrNewW)⟩

theorem identity_change_discards_prior_witness :
    get_fitbit_data envC1 ⟨[], 0, []⟩ priorC1 =
      get_fitbit_data envC1 ⟨[], 0, []⟩ emptyFitbitData :=
  identity_change_discards_prior envC1 ⟨[], 0, []⟩ priorC1
    ⟨0, "OLD", 0, ⟨2021, 5, 3, 0⟩, 0, 0, 0⟩ 200 qrNewW
    ⟨"NEW", ⟨2021, 5, 3, 0⟩, 1, 2, 3, 4, 5⟩ rfl (by decide) (by decide) rfl rfl (by decide)

/-! ## State-shape lemmas for the sync loops -/

theorem remoteCache_ext (env : Env) (st : QState) (dk : String) (t : Option DateTime) :
    ∃ ext, remoteCache env st dk t = st.cache ++ ext := by
  unfold remoteCache
  rcases remoteResult env st dk with q | e
  · rcases t with _ | td
    · exact ⟨[], by simp⟩
    · by_cases hcl : env.now.toHours - td.toHours > CACHE_MIN
      · exact ⟨[⟨dk, q, env.now.toHours⟩], by simp [hcl, cachePut]⟩
      · exact ⟨[], by simp [hcl]⟩
  · exact ⟨[], by simp⟩

theorem fq_shape (env : Env) (st : QState) (n : String) (pk : Option String)
    (path : String) (t : Option DateTime) :
    ∃ ext b, (fitbit_query env st n pk path t).1.cache = st.cache ++ ext ∧
      (fitbit_query env st n pk path t).1.log = st.log ++ [⟨n, pk, t, b⟩] := by
  rcases hc : cacheLookup st.cache (dataKeyOf env path) with _ | c
  · obtain ⟨ext, hext⟩ := remoteCache_ext env st (dataKeyOf env path) t
    rw [fq_remote env st n pk path t
      (fun c hcc => by rw [hc] at hcc; exact Option.noConfusion hcc)]
    exact ⟨ext, true, hext, rfl⟩
  · by_cases hu : cacheUsable env c t
    · rw [fq_hit env st n pk path t c hc hu]
      exact ⟨[], false, by simp, rfl⟩
    · rw [fq_remote env st n pk path t (fun c' hcc => by
        have h2 : c = c' := by
          have h3 := hc.symm.trans hcc
          simpa using h3
        exact h2 ▸ hu)]
      obtain ⟨ext, hext⟩ := remoteCache_ext env st (dataKeyOf env path) t
      exact ⟨ext, true, hext, rfl⟩

theorem noneLoop_shape (env : Env) (userId : String) :
    ∀ (urls : List FitbitUrl) (st : QState) (d : FitbitData),
      ∃ ext tail, (noneLoop env userId urls st d).1.cache = st.cache ++ ext ∧
        (noneLoop env userId urls st d).1.log = st.log ++ tail ∧
        (∀ e ∈ tail, e.periodKey = none ∧ e.target = some env.now) ∧
        (∀ d', (noneLoop env userId urls st d).2 = .ok d' →
          d'.resData = d.resData ∧ d'.profile = d.profile) := by
  intro urls
  induction urls with
  | nil =>
    intro st d
    refine ⟨[], [], by simp [noneLoop], by simp [noneLoop], by simp, ?_⟩
    intro d' h
    rw [noneLoop] at h
    cases h
    exact ⟨rfl, rfl⟩
  | cons u rest ih =>
    intro st d
    rw [noneLoop]
    by_cases hid : userId = ""
    · rw [if_pos hid]
      refine ⟨[], [], by simp, by simp, by simp, ?_⟩
      intro d' h
      exact absurd h (by simp)
    · rw [if_neg hid]
      rcases hfq : fitbit_query env st u.name none (formatPath u.url userId "" "")
        (some env.now) with ⟨st1, r⟩
      obtain ⟨ext1, b, hc1, hl1⟩ := fq_shape env st u.name none
        (formatPath u.url userId "" "") (some env.now)
      rw [hfq] at hc1 hl1
      rcases r with q | e
      · obtain ⟨ext2, tail2, hc2, hl2, htail2, hdata⟩ :=
          ih st1 { d with noneData := alistInsert d.noneData u.name q }
        refine ⟨ext1 ++ ext2, ⟨u.name, none, some env.now, b⟩ :: tail2, ?_, ?_, ?_, ?_⟩
        · rw [hc2, hc1, List.append_assoc]
        · rw [hl2, hl1, List.append_assoc]
          rfl
        · intro e he
          rcases List.mem_cons.mp he with rfl | he2
          · exact ⟨rfl, rfl⟩
          · exact htail2 e he2
        · intro d' h
          exact hdata d' h
      · refine ⟨ext1, [⟨u.name, none, some env.now, b⟩], hc1, hl1, ?_, ?_⟩
        · intro e he
          rcases List.mem_cons.mp he with rfl | he2
          · exact ⟨rfl, rfl⟩
          · simp at he2
        · intro d' h
          exact absurd h (by simp)

theorem partLoop_shape (env : Env) (name : String) :
    ∀ (specs : List PartSpec) (st : QState) (m : List (String × QueryResult)),
      ∃ ext tail, (partLoop env name specs st m).1.cache = st.cache ++ ext ∧
        (partLoop env name specs st m).1.log = st.log ++ tail ∧
        (∀ e ∈ tail, e.name = name ∧
          ∃ p ∈ specs, e.periodKey = some p.key ∧ e.target = some p.target) ∧
        (∀ k, (alistLookup m k).isSome → ∀ e ∈ tail, e.periodKey ≠ some k) := by
  intro specs
  induction specs with
  | nil =>
    intro st m
    refine ⟨[], [], by simp [partLoop], by simp [partLoop], by simp, by simp⟩
  | cons p rest ih =>
    intro st m
    rw [partLoop]
    by_cases hpres : (alistLookup m p.key).isSome
    · rw [if_pos hpres]
      obtain ⟨ext, tail, hc, hl, htail, hskip⟩ := ih st m
      refine ⟨ext, tail, hc, hl, ?_, hskip⟩
      intro e he
      obtain ⟨h1, p', hp', h2⟩ := htail e he
      exact ⟨h1, p', List.mem_cons_of_mem _ hp', h2⟩
    · rw [if_neg hpres]
      rcases hfq : fitbit_query env st name (some p.key) p.path (some p.target) with ⟨st1, r⟩
      obtain ⟨ext1, b, hc1, hl1⟩ := fq_shape env st name (some p.key) p.path (some p.target)
      rw [hfq] at hc1 hl1
      rcases r with q | e
      · dsimp only
        obtain ⟨ext2, tail2, hc2, hl2, htail2, hskip2⟩ := ih st1 (alistInsert m p.key q)
        refine ⟨ext1 ++ ext2, ⟨name, some p.key, some p.target, b⟩ :: tail2, ?_, ?_, ?_, ?_⟩
        · rw [hc2, hc1, List.append_assoc]
        · rw [hl2, hl1, List.append_assoc]
          rfl
        · intro e he
          rcases List.mem_cons.mp he with rfl | he2
          · exact ⟨rfl, p, List.mem_cons_self _ _, rfl, rfl⟩
          · obtain ⟨h1, p', hp', h2⟩ := htail2 e he2
            exact ⟨h1, p', List.mem_cons_of_mem _ hp', h2⟩
        · intro k hk e he
          rcases List.mem_cons.mp he with rfl | he2
          · intro hcontra
            obtain rfl : p.key = k := by simpa using hcontra
            exact hpres hk
          · exact hskip2 k (alistLookup_insert_isSome m p.key k q hk) e he2
      · dsimp only
        refine ⟨ext1, [⟨name, some p.key, some p.target, b⟩], hc1, hl1, ?_, ?_⟩
        · intro e he
          rcases List.mem_cons.mp he with rfl | he2
          · exact ⟨rfl, p, List.mem_cons_self _ _, rfl, rfl⟩
          · simp at he2
        · intro k hk e he
          rcases List.mem_cons.mp he with rfl | he2
          · intro hcontra
            obtain rfl : p.key = k := by simpa using hcontra
            exact hpres hk
          · simp at he2

theorem partLoop_ok (env : Env) (name : String) :
    ∀ (specs : List PartSpec) (st : QState) (m m' : List (String × QueryResult)),
      (partLoop env name specs st m).2 = .ok m' →
      (∀ k, (alistLookup m k).isSome → (alistLookup m' k).isSome) ∧
      (∀ p ∈ specs, (alistLookup m' p.key).isSome) := by
  intro specs
  induction specs with
  | nil =>
    intro st m m' h
    rw [partLoop] at h
    cases h
    exact ⟨fun k hk => hk, by simp⟩
  | cons p rest ih =>
    intro st m m' h
    rw [partLoop] at h
    by_cases hpres : (alistLookup m p.key).isSome
    · rw [if_pos hpres] at h
      obtain ⟨h1, h2⟩ := ih st m m' h
      refine ⟨h1, ?_⟩
      intro p' hp'
      rcases List.mem_cons.mp hp' with rfl | hp2
      · exact h1 p'.key hpres
      · exact h2 p' hp2
    · rw [if_neg hpres] at h
      rcases hfq : fitbit_query env st name (some p.key) p.path (some p.target) with ⟨st1, r⟩
      rw [hfq] at h
      rcases r with q | e
      · obtain ⟨h1, h2⟩ := ih st1 (alistInsert m p.key q) m' h
        refine ⟨?_, ?_⟩
        · intro k hk
          exact h1 k (alistLookup_insert_isSome m p.key k q hk)
        · intro p' hp'
          rcases List.mem_cons.mp hp' with rfl | hp2
          · refine h1 p'.key ?_
            rw [alistLookup_insert_self]
            rfl
          · exact h2 p' hp2
      · exact absurd h (by simp)

theorem getRes_setRes_self (d : FitbitData) (name : String)
    (m : List (String × QueryResult)) : (d.setRes name m).getRes name = m := by
  unfold FitbitData.setRes FitbitData.getRes
  simp [alistLookup_insert_self]

theorem getRes_setRes_ne (d : FitbitData) (name nm : String)
    (m : List (String × QueryResult)) (h : nm ≠ name) :
    (d.setRes name m).getRes nm = d.getRes nm := by
  unfold FitbitData.setRes FitbitData.getRes
  rw [alistLookup_insert_ne d.resData name nm m h]

theorem calUrlsLoop_shape (env : Env) (specsOf : FitbitUrl → List PartSpec) :
    ∀ (urls : List FitbitUrl) (st : QState) (d : FitbitData),
      ∃ ext tail, (calUrlsLoop env specsOf urls st d).1.cache = st.cache ++ ext ∧
        (calUrlsLoop env specsOf urls st d).1.log = st.log ++ tail ∧
        (∀ e ∈ tail, ∃ u ∈ urls, e.name = u.name ∧
          ∃ p ∈ specsOf u, e.periodKey = some p.key ∧ e.target = some p.target) ∧
        ((urls.map (fun u => u.name)).Nodup →
          ∀ u ∈ urls, ∀ k, (alistLookup (d.getRes u.name) k).isSome →
            ∀ e ∈ tail, ¬(e.name = u.name ∧ e.periodKey = some k)) ∧
        (∀ d', (calUrlsLoop env specsOf urls st d).2 = .ok d' →
          d'.profile = d.profile ∧ d'.noneData = d.noneData ∧
          (∀ nm, nm ∉ urls.map (fun u => u.name) → d'.getRes nm = d.getRes nm) ∧
          (∀ nm k, (alistLookup (d.getRes nm) k).isSome →
            (alistLookup (d'.getRes nm) k).isSome) ∧
          (∀ u ∈ urls, ∀ p ∈ specsOf u, (alistLookup (d'.getRes u.name) p.key).isSome)) := by
  intro urls
  induction urls with
  | nil =>
    intro st d
    refine ⟨[], [], by simp [calUrlsLoop], by simp [calUrlsLoop], by simp, by simp, ?_⟩
    intro d' h
    rw [calUrlsLoop] at h
    cases h
    exact ⟨rfl, rfl, fun nm _ => rfl, fun nm k hk => hk, by simp⟩
  | cons u0 rest ih =>
    intro st d
    rw [calUrlsLoop]
    rcases hpl : partLoop env u0.name (specsOf u0) st (d.getRes u0.name) with ⟨st1, r⟩
    obtain ⟨ext1, tail1, hc1, hl1, htail1, hskip1⟩ :=
      partLoop_shape env u0.name (specsOf u0) st (d.getRes u0.name)
    rw [hpl] at hc1 hl1
    rcases r with m1 | e
    · obtain ⟨ext2, tail2, hc2, hl2, htail2, hskip2, hok2⟩ :=
        ih st1 (d.setRes u0.name m1)
      obtain ⟨hmono1, hcomp1⟩ := partLoop_ok env u0.name (specsOf u0) st
        (d.getRes u0.name) m1 (by rw [hpl])
      refine ⟨ext1 ++ ext2, tail1 ++ tail2, ?_, ?_, ?_, ?_, ?_⟩
      · rw [hc2, hc1, List.append_assoc]
      · rw [hl2, hl1, List.append_assoc]
      · intro e he
        rcases List.mem_append.mp he with he1 | he2
        · obtain ⟨hn, p, hp, hrest⟩ := htail1 e he1
          exact ⟨u0, List.mem_cons_self _ _, hn, p, hp, hrest⟩
        · obtain ⟨u, hu, hn, p, hp, hrest⟩ := htail2 e he2
          exact ⟨u, List.mem_cons_of_mem _ hu, hn, p, hp, hrest⟩
      · intro hnd u hu k hk e he
        have hnd1 : (u0.name :: rest.map (fun u => u.name)).Nodup := by
          rw [List.map_cons] at hnd
          exact hnd
        have hnd' : (rest.map (fun u => u.name)).Nodup := (List.nodup_cons.mp hnd1).2
        have hu0 : u0.name ∉ rest.map (fun u => u.name) := (List.nodup_cons.mp hnd1).1
        rcases List.mem_cons.mp hu with rfl | hu2
        · rcases List.mem_append.mp he with he1 | he2
          · rintro ⟨hn, hpk⟩
            exact hskip1 k hk e he1 hpk
          · rintro ⟨hn, hpk⟩
            obtain ⟨u', hu', hn', -⟩ := htail2 e he2
            apply hu0
            have heq : u.name = u'.name := by rw [← hn, hn']
            rw [heq]
            exact List.mem_map_of_mem _ hu'
        · have hne : u.name ≠ u0.name := by
            intro hh
            exact hu0 (hh ▸ List.mem_map_of_mem _ hu2)
          rcases List.mem_append.mp he with he1 | he2
          · rintro ⟨hn, hpk⟩
            obtain ⟨hn1, -⟩ := htail1 e he1
            exact hne (hn ▸ hn1).symm.symm
          · have hk1 : (alistLookup ((d.setRes u0.name m1).getRes u.name) k).isSome := by
              rw [getRes_setRes_ne d u0.name u.name m1 hne]
              exact hk
            exact hskip2 hnd' u hu2 k hk1 e he2
      · intro d' h
        obtain ⟨hp2, hn2, hpres2, hmono2, hcomp2⟩ := hok2 d' h
        refine ⟨hp2, hn2, ?_, ?_, ?_⟩
        · intro nm hnm
          have hne : nm ≠ u0.name := by
            intro hh
            exact hnm (by simp [hh])
          have hnm2 : nm ∉ rest.map (fun u => u.name) := by
            intro hh
            exact hnm (by simp [hh])
          rw [hpres2 nm hnm2, getRes_setRes_ne d u0.name nm m1 hne]
        · intro nm k hk
          refine hmono2 nm k ?_
          by_cases hne : nm = u0.name
          · subst hne
            rw [getRes_setRes_self]
            exact hmono1 k hk
          · rw [getRes_setRes_ne d u0.name nm m1 hne]
            exact hk
        · intro u hu p hp
          rcases List.mem_cons.mp hu with rfl | hu2
          · refine hmono2 u.name p.key ?_
            rw [getRes_setRes_self]
            exact hcomp1 p hp
          · exact hcomp2 u hu2 p hp
    · refine ⟨ext1, tail1, hc1, hl1, ?_, ?_, ?_⟩
      · intro e he
        obtain ⟨hn, p, hp, hrest⟩ := htail1 e he
        exact ⟨u0, List.mem_cons_self _ _, hn, p, hp, hrest⟩
      · intro hnd u hu k hk e he
        rcases List.mem_cons.mp hu with rfl | hu2
        · rintro ⟨hn, hpk⟩
          exact hskip1 k hk e he hpk
        · have hnd1 : (u0.name :: rest.map (fun u => u.name)).Nodup := by
            rw [List.map_cons] at hnd
            exact hnd
          have hu0 : u0.name ∉ rest.map (fun u => u.name) := (List.nodup_cons.mp hnd1).1
          have hne : u.name ≠ u0.name := by
            intro hh
            exact hu0 (hh ▸ List.mem_map_of_mem _ hu2)
          rintro ⟨hn, hpk⟩
          obtain ⟨hn1, -⟩ := htail1 e he
          exact hne (hn ▸ hn1).symm.symm
      · intro d' h
        exact absurd h (by simp)

theorem getRes_eq_of_resData (d d' : FitbitData) (h : d'.resData = d.resData)
    (nm : String) : d'.getRes nm = d.getRes nm := by
  unfold FitbitData.getRes
  rw [h]

theorem gfd_rest_skip (env : Env) (userId : String) (startDate : DateTime)
    (st : QState) (fd2 : FitbitData) (u : FitbitUrl) (k : String)
    (hu : u ∈ fitbit_urls.filter (fun x => x.period == .year) ∨
      u ∈ fitbit_urls.filter (fun x => x.period == .month))
    (hk : (alistLookup (fd2.getRes u.name) k).isSome) :
    ∃ tail, (gfd_rest env userId startDate st fd2).1.log = st.log ++ tail ∧
      ∀ e ∈ tail, ¬(e.name = u.name ∧ e.periodKey = some k) := by
  unfold gfd_rest
  rcases hN : noneLoop env userId (fitbit_urls.filter (fun x => x.period == .noGran))
    st fd2 with ⟨st2, rN⟩
  obtain ⟨extN, tailN, hcN, hlN, htailN, hdataN⟩ :=
    noneLoop_shape env userId (fitbit_urls.filter (fun x => x.period == .noGran)) st fd2
  rw [hN] at hcN hlN hdataN
  have htN : ∀ e ∈ tailN, ¬(e.name = u.name ∧ e.periodKey = some k) := by
    rintro e he ⟨-, hpk⟩
    rw [(htailN e he).1] at hpk
    exact Option.noConfusion hpk
  rcases rN with fd3 | e
  · dsimp only
    obtain ⟨hres3, -⟩ := hdataN fd3 rfl
    have hk3 : (alistLookup (fd3.getRes u.name) k).isSome := by
      rw [getRes_eq_of_resData fd2 fd3 hres3 u.name]
      exact hk
    rcases hY : calUrlsLoop env (fun u => yearSpecs env userId u startDate)
        (fitbit_urls.filter (fun x => x.period == .year)) st2 fd3 with ⟨st3, rY⟩
    obtain ⟨extY, tailY, hcY, hlY, htailY, hskipY, hokY⟩ :=
      calUrlsLoop_shape env (fun u => yearSpecs env userId u startDate)
        (fitbit_urls.filter (fun x => x.period == .year)) st2 fd3
    rw [hY] at hcY hlY hokY
    have htY : ∀ e ∈ tailY, ¬(e.name = u.name ∧ e.periodKey = some k) := by
      rcases hu with huY | huM
      · exact hskipY yearNames_nodup u huY k hk3
      · rintro e he ⟨hn, -⟩
        obtain ⟨u', hu', hn', -⟩ := htailY e he
        apply month_not_year_name u huM
        rw [← hn, hn']
        exact List.mem_map_of_mem _ hu'
    rcases rY with fd4 | e
    · dsimp only
      obtain ⟨-, -, hpresY, hmonoY, -⟩ := hokY fd4 rfl
      obtain ⟨extM, tailM, hcM, hlM, htailM, hskipM, hokM⟩ :=
        calUrlsLoop_shape env (fun u => monthSpecs env userId u startDate)
          (fitbit_urls.filter (fun x => x.period == .month)) st3 fd4
      have htM : ∀ e ∈ tailM, ¬(e.name = u.name ∧ e.periodKey = some k) := by
        rcases hu with huY | huM
        · rintro e he ⟨hn, -⟩
          obtain ⟨u', hu', hn', -⟩ := htailM e he
          apply year_not_month_name u huY
          rw [← hn, hn']
          exact List.mem_map_of_mem _ hu'
        · have hk4 : (alistLookup (fd4.getRes u.name) k).isSome := by
            rw [hpresY u.name (month_not_year_name u huM)]
            exact hk3
          exact hskipM monthNames_nodup u huM k hk4
      refine ⟨tailN ++ (tailY ++ tailM), ?_, ?_⟩
      · rw [hlM]
        simp only at hlY hlN
        rw [hlY, hlN]
        simp [List.append_assoc]
      · intro e he
        rcases List.mem_append.mp he with he1 | he2
        · exact htN e he1
        · rcases List.mem_append.mp he2 with he3 | he4
          · exact htY e he3
          · exact htM e he4
    · dsimp only
      refine ⟨tailN ++ tailY, ?_, ?_⟩
      · simp only at hlY hlN
        rw [hlY, hlN]
        simp [List.append_assoc]
      · intro e he
        rcases List.mem_append.mp he with he1 | he2
        · exact htN e he1
        · exact htY e he2
  · dsimp only
    simp only at hlN
    exact ⟨tailN, hlN, htN⟩

theorem gfd_rest_complete (env : Env) (userId : String) (startDate : DateTime)
    (st : QState) (fd2 : FitbitData) (out : FitbitData)
    (h : (gfd_rest env userId startDate st fd2).2 = .ok out) :
    (∀ u ∈ fitbit_urls.filter (fun x => x.period == .year),
      ∀ p ∈ yearSpecs env userId u startDate,
        (alistLookup (out.getRes u.name) p.key).isSome) ∧
    (∀ u ∈ fitbit_urls.filter (fun x => x.period == .month),
      ∀ p ∈ monthSpecs env userId u startDate,
        (alistLookup (out.getRes u.name) p.key).isSome) := by
  unfold gfd_rest at h
  rcases hN : noneLoop env userId (fitbit_urls.filter (fun x => x.period == .noGran))
    st fd2 with ⟨st2, rN⟩
  rw [hN] at h
  rcases rN with fd3 | e
  · dsimp only at h
    rcases hY : calUrlsLoop env (fun u => yearSpecs env userId u startDate)
        (fitbit_urls.filter (fun x => x.period == .year)) st2 fd3 with ⟨st3, rY⟩
    rw [hY] at h
    obtain ⟨extY, tailY, hcY, hlY, htailY, hskipY, hokY⟩ :=
      calUrlsLoop_shape env (fun u => yearSpecs env userId u startDate)
        (fitbit_urls.filter (fun x => x.period == .year)) st2 fd3
    rw [hY] at hokY
    rcases rY with fd4 | e
    · dsimp only at h
      obtain ⟨-, -, -, -, hcompY⟩ := hokY fd4 rfl
      obtain ⟨extM, tailM, hcM, hlM, htailM, hskipM, hokM⟩ :=
        calUrlsLoop_shape env (fun u => monthSpecs env userId u startDate)
          (fitbit_urls.filter (fun x => x.period == .month)) st3 fd4
      obtain ⟨-, -, -, hmonoM, hcompM⟩ := hokM out h
      constructor
      · intro u hu p hp
        exact hmonoM u.name p.key (hcompY u hu p hp)
      · intro u hu p hp
        exact hcompM u hu p hp
    · exact absurd h (by simp)
  · exact absurd h (by simp)

/-- **C5**: For every calendar-granular resource, `get_fitbit_data` iterates
over all period keys from the bounding "member since" date to now and skips
(queries neither the cache nor the remote API for) every period key already
present in the loaded prior output: after a successful profile resolution
matching the stored identity, no query in the rest of the run carries that
resource's name together with an already-present period key, and on success
every period key of the member-since..now range is present in the result. -/
theorem closed_partitions_skipped (env : Env) (st : QState) (prior : FitbitData)
    (s : Nat) (q : QueryResult) (usr : UserInfo) (u : FitbitUrl) (k : String)
    (hr : env.remote st.calls (dataKeyOf env "/-/profile.json") = .resp s (some q))
    (hs : ¬(s = 429 ∨ s = 504))
    (he : ¬(q.errors.isSome ∧ q.success = some false))
    (huq : q.user = some usr)
    (hid : ∀ p, prior.profile = some p → p.encodedId = usr.encodedId)
    (hu : u ∈ fitbit_urls.filter (fun x => x.period == .year) ∨
      u ∈ fitbit_urls.filter (fun x => x.period == .month))
    (hk : (alistLookup (prior.getRes u.name) k).isSome) :
    (∀ e ∈ (get_fitbit_data env st prior).1.log.drop st.log.length,
      ¬(e.name = u.name ∧ e.periodKey = some k)) ∧
    (∀ out, (get_fitbit_data env st prior).2 = .ok out →
      (u ∈ fitbit_urls.filter (fun x => x.period == .year) →
        ∀ p ∈ yearSpecs env usr.encodedId u usr.memberSince,
          (alistLookup (out.getRes u.name) p.key).isSome) ∧
      (u ∈ fitbit_urls.filter (fun x => x.period == .month) →
        ∀ p ∈ monthSpecs env usr.encodedId u usr.memberSince,
          (alistLookup (out.getRes u.name) p.key).isSome)) := by
  have hno : ∀ c, cacheLookup st.cache (dataKeyOf env "/-/profile.json") = some c →
      ¬cacheUsable env c none := by
    intro c hc hu2
    obtain ⟨-, t', ht', -⟩ := hu2
    exact Option.noConfusion ht'
  have hrr : remoteResult env st (dataKeyOf env "/-/profile.json") = .ok q := by
    unfold remoteResult
    simp only [hr]
    rw [if_neg hs]
    exact dif_neg he
  have hq : fitbit_query env st "profile" none "/-/profile.json" none =
      (⟨remoteCache env st (dataKeyOf env "/-/profile.json") none, st.calls + 1,
        st.log ++ [⟨"profile", none, none, true⟩]⟩, .ok q) := by
    rw [fq_remote env st "profile" none "/-/profile.json" none hno, hrr]
  have hmain :
      (∀ e ∈ (gfd_rest env usr.encodedId usr.memberSince
          ⟨remoteCache env st (dataKeyOf env "/-/profile.json") none, st.calls + 1,
            st.log ++ [⟨"profile", none, none, true⟩]⟩
          ⟨some (profileOf usr), prior.resData, prior.noneData⟩).1.log.drop
            st.log.length,
        ¬(e.name = u.name ∧ e.periodKey = some k)) ∧
      (∀ out, (gfd_rest env usr.encodedId usr.memberSince
          ⟨remoteCache env st (dataKeyOf env "/-/profile.json") none, st.calls + 1,
            st.log ++ [⟨"profile", none, none, true⟩]⟩
          ⟨some (profileOf usr), prior.resData, prior.noneData⟩).2 = .ok out →
        (u ∈ fitbit_urls.filter (fun x => x.period == .year) →
          ∀ p ∈ yearSpecs env usr.encodedId u usr.memberSince,
            (alistLookup (out.getRes u.name) p.key).isSome) ∧
        (u ∈ fitbit_urls.filter (fun x => x.period == .month) →
          ∀ p ∈ monthSpecs env usr.encodedId u usr.memberSince,
            (alistLookup (out.getRes u.name) p.key).isSome)) := by
    have hk2 : (alistLookup ((⟨some (profileOf usr), prior.resData, prior.noneData⟩ :
        FitbitData).getRes u.name) k).isSome := hk
    obtain ⟨tail, hlog, htail⟩ := gfd_rest_skip env usr.encodedId usr.memberSince
      ⟨remoteCache env st (dataKeyOf env "/-/profile.json") none, st.calls + 1,
        st.log ++ [⟨"profile", none, none, true⟩]⟩
      ⟨some (profileOf usr), prior.resData, prior.noneData⟩ u k hu hk2
    constructor
    · intro e he
      rw [hlog] at he
      have he2 : e ∈ ((st.log ++ [(⟨"profile", none, none, true⟩ : LogEntry)]) ++
          tail).drop st.log.length := he
      rw [List.append_assoc, List.drop_left] at he2
      rcases List.mem_append.mp he2 with h1 | h2
      · rintro ⟨-, hpk⟩
        rw [List.mem_singleton.mp h1] at hpk
        exact Option.noConfusion hpk
      · exact htail e h2
    · intro out hok
      obtain ⟨hY, hM⟩ := gfd_rest_complete env usr.encodedId usr.memberSince
        ⟨remoteCache env st (dataKeyOf env "/-/profile.json") none, st.calls + 1,
          st.log ++ [⟨"profile", none, none, true⟩]⟩
        ⟨some (profileOf usr), prior.resData, prior.noneData⟩ out hok
      exact ⟨fun hu2 p hp => hY u hu2 p hp, fun hu2 p hp => hM u hu2 p hp⟩
  unfold get_fitbit_data
  rw [hq]
  simp only [huq]
  rcases hpp : prior.profile with _ | p
  · exact hmain
  · have hpe : ¬p.encodedId ≠ usr.encodedId := not_not_intro (hid p hpp)
    simp only [if_neg hpe]
    exact hmain

def usrC5 : UserInfo := ⟨"NEW", ⟨2021, 5, 3, 0⟩, 1, 2, 3, 4, 5⟩

def qrC5 : QueryResult := ⟨some usrC5, none, none, 7⟩

def envC5 : Env := ⟨nowW, "oh", fun _ _ => .resp 200 (some qrC5)⟩

def uC5 : FitbitUrl :=
  ⟨"tracker-steps",
    "/{user_id}/activities/tracker/steps/date/{start_date}/{end_date}.json", .year⟩

/-- Prior output already holding the closed year `2021` of `tracker-steps`,
under the same identity the profile query will resolve. -/
def priorC5 : FitbitData :=
  ⟨some (profileOf usrC5), [("tracker-steps", [("2021", qrW)])], []⟩

set_option maxHeartbeats 4000000 in
theorem closed_partitions_skipped_witness :
    ¬((⟨"profile", none, none, true⟩ : LogEntry).name = uC5.name ∧
      (⟨"profile", none, none, true⟩ : LogEntry).periodKey = some "2021") :=
  (closed_partitions_skipped envC5 ⟨[], 0, []⟩ priorC5 200 qrC5 usrC5 uC5 "2021"
    rfl (by decide) (by decide) rfl
    (by
      intro p hp
      have h2 : some (profileOf usrC5) = some p := hp
      injection h2 with h3
      rw [← h3]
      rfl)
    (Or.inl (by decide)) (by decide)).1
    ⟨"profile", none, none, true⟩ (by decide)

/-! ## C6: a deterministic remote and a same-instant cache -/

/-- The result of one fetch under a deterministic remote `det`, independent
of the call index and of the cache contents. -/
def pureOutcome (det : String → FetchOutcome) (dk : String) : PyResult QueryResult :=
  match det dk with
  | .limiterError => .err .rateLimit
  | .resp s body =>
    if s = 429 ∨ s = 504 then .err .rateLimit
    else
      match body with
      | none => .err .valueError
      | some q =>
        if h : q.errors.isSome ∧ q.success = some false then
          .err (.apiError (q.errors.get h.1))
        else .ok q

/-- A cache row written at the current instant and consistent with `det`. -/
def detGood (env : Env) (det : String → FetchOutcome) (c : CacheItem) : Prop :=
  c.requestTime = env.now.toHours ∧ pureOutcome det c.key = .ok c.response

/-- Every cache row was written at the current instant with the response the
deterministic remote gives for its key. -/
def CacheGood (env : Env) (det : String → FetchOutcome)
    (cache : List CacheItem) : Prop :=
  ∀ c ∈ cache, detGood env det c

/-- The query's target date is already closed per the cache trust rule:
more than `CACHE_MIN` before now. -/
def targetClosed (env : Env) (t : Option DateTime) : Prop :=
  ∃ td, t = some td ∧ env.now.toHours - td.toHours > CACHE_MIN

/-- The cache holds some row under the data key. -/
def hasKey (cache : List CacheItem) (dk : String) : Prop :=
  (cacheLookup cache dk).isSome

theorem remoteResult_det (env : Env) (det : String → FetchOutcome)
    (hdet : ∀ i k, env.remote i k = det k) (st : QState) (dk : String) :
    remoteResult env st dk = pureOutcome det dk := by
  unfold remoteResult pureOutcome
  rw [hdet st.calls dk]

theorem hasKey_mono (cache ext : List CacheItem) (dk : String)
    (h : hasKey cache dk) : hasKey (cache ++ ext) dk := by
  unfold hasKey at h ⊢
  rw [cacheLookup_isSome_iff] at h ⊢
  obtain ⟨c, hm, hk⟩ := h
  exact ⟨c, List.mem_append_left ext hm, hk⟩

theorem remoteCache_good (env : Env) (det : String → FetchOutcome)
    (hdet : ∀ i k, env.remote i k = det k) (st : QState) (dk : String)
    (t : Option DateTime) (hg : CacheGood env det st.cache) :
    CacheGood env det (remoteCache env st dk t) := by
  have hrd := remoteResult_det env det hdet st dk
  rcases t with _ | td
  · rw [remoteCache_none]
    exact hg
  · rcases hr : remoteResult env st dk with q | e
    · by_cases hcl : env.now.toHours - td.toHours > CACHE_MIN
      · rw [remoteCache_closed env st dk td q hr hcl]
        intro c hcmem
        have h2 : c ∈ st.cache ∨ c = ⟨dk, q, env.now.toHours⟩ := by
          simpa [cachePut] using hcmem
        rcases h2 with hm | rfl
        · exact hg c hm
        · exact ⟨rfl, by rw [← hrd]; exact hr⟩
      · rw [remoteCache_open env st dk td q hr hcl]
        exact hg
    · rw [remoteCache_err env st dk _ e hr]
      exact hg

theorem fq_det_remote_aux (env : Env) (det : String → FetchOutcome)
    (hdet : ∀ i k, env.remote i k = det k)
    (st : QState) (n : String) (pk : Option String) (path : String)
    (t : Option DateTime) (hg : CacheGood env det st.cache)
    (hnc : ∀ c, cacheLookup st.cache (dataKeyOf env path) = some c →
      ¬cacheUsable env c t) :
    (fitbit_query env st n pk path t).2 = pureOutcome det (dataKeyOf env path) ∧
    CacheGood env det (fitbit_query env st n pk path t).1.cache ∧
    (∃ ext, (fitbit_query env st n pk path t).1.cache = st.cache ++ ext) ∧
    (fitbit_query env st n pk path t).1.log = st.log ++ [⟨n, pk, t, true⟩] ∧
    (targetClosed env t → ∀ q, pureOutcome det (dataKeyOf env path) = .ok q →
      hasKey (fitbit_query env st n pk path t).1.cache (dataKeyOf env path)) := by
  have hrd := remoteResult_det env det hdet st (dataKeyOf env path)
  rw [fq_remote env st n pk path t hnc]
  refine ⟨hrd, remoteCache_good env det hdet st _ t hg,
    remoteCache_ext env st _ t, rfl, ?_⟩
  rintro ⟨td, rfl, hcl⟩ q hq
  have hok : remoteResult env st (dataKeyOf env path) = .ok q := by
    rw [hrd]
    exact hq
  show hasKey (remoteCache env st (dataKeyOf env path) (some td)) (dataKeyOf env path)
  rw [remoteCache_closed env st _ td q hok hcl]
  unfold hasKey
  rw [cacheLookup_isSome_iff]
  exact ⟨⟨dataKeyOf env path, q, env.now.toHours⟩, by simp [cachePut], rfl⟩

/-- Under a deterministic remote and a same-instant consistent cache, one
`fitbit_query` call returns exactly the deterministic outcome for its data
key, preserves cache consistency, extends the cache, appends one log entry
that is a remote attempt only if the target is not both closed and already
cached, and leaves the key cached whenever the target is closed and the
fetch succeeded. -/
theorem fq_det (env : Env) (det : String → FetchOutcome)
    (hdet : ∀ i k, env.remote i k = det k)
    (st : QState) (n : String) (pk : Option String) (path : String)
    (t : Option DateTime) (hg : CacheGood env det st.cache) :
    (fitbit_query env st n pk path t).2 = pureOutcome det (dataKeyOf env path) ∧
    CacheGood env det (fitbit_query env st n pk path t).1.cache ∧
    (∃ ext, (fitbit_query env st n pk path t).1.cache = st.cache ++ ext) ∧
    (∃ b, (fitbit_query env st n pk path t).1.log = st.log ++ [⟨n, pk, t, b⟩] ∧
      (b = true → ¬(targetClosed env t ∧ hasKey st.cache (dataKeyOf env path)))) ∧
    (targetClosed env t →
      ∀ q, pureOutcome det (dataKeyOf env path) = .ok q →
        hasKey (fitbit_query env st n pk path t).1.cache (dataKeyOf env path)) := by
  rcases hc : cacheLookup st.cache (dataKeyOf env path) with _ | c
  · have hnc : ∀ c', cacheLookup st.cache (dataKeyOf env path) = some c' →
        ¬cacheUsable env c' t := by
      intro c' hcc
      rw [hc] at hcc
      exact absurd hcc (by simp)
    obtain ⟨h1, h2, h3, h4, h5⟩ := fq_det_remote_aux env det hdet st n pk path t hg hnc
    refine ⟨h1, h2, h3, ⟨true, h4, ?_⟩, h5⟩
    rintro - ⟨-, hk⟩
    unfold hasKey at hk
    rw [hc] at hk
    exact absurd hk (by simp)
  · by_cases hu : cacheUsable env c t
    · rw [fq_hit env st n pk path t c hc hu]
      obtain ⟨hmem, hkey, -⟩ := cacheLookup_mem st.cache (dataKeyOf env path) c hc
      obtain ⟨hrt, hpure⟩ := hg c hmem
      refine ⟨?_, hg, ⟨[], by simp⟩, ⟨false, rfl, by simp⟩, ?_⟩
      · show PyResult.ok c.response = pureOutcome det (dataKeyOf env path)
        rw [← hkey, hpure]
      · intro hcl q hq
        show hasKey st.cache (dataKeyOf env path)
        unfold hasKey
        rw [hc]
        rfl
    · have hnc : ∀ c', cacheLookup st.cache (dataKeyOf env path) = some c' →
          ¬cacheUsable env c' t := by
        intro c' hcc
        have h2 : c = c' := Option.some.inj (hc.symm.trans hcc)
        rw [← h2]
        exact hu
      obtain ⟨h1, h2, h3, h4, h5⟩ := fq_det_remote_aux env det hdet st n pk path t hg hnc
      refine ⟨h1, h2, h3, ⟨true, h4, ?_⟩, h5⟩
      rintro - ⟨⟨td, htd, hcl⟩, hk⟩
      obtain ⟨hmem, -, -⟩ := cacheLookup_mem st.cache (dataKeyOf env path) c hc
      obtain ⟨hrt, -⟩ := hg c hmem
      apply hu
      refine ⟨?_, td, htd, ?_⟩
      · rw [hrt]
        have hCM : (CACHE_MAX : Int) = 168 := rfl
        omega
      · rw [hrt]
        exact hcl

theorem targetClosed_now (env : Env) : ¬targetClosed env (some env.now) := by
  rintro ⟨td, htd, hcl⟩
  have h2 : env.now = td := Option.some.inj htd
  rw [← h2] at hcl
  have hCM : (CACHE_MIN : Int) = 24 := rfl
  omega

theorem noneLoop_par (env : Env) (det : String → FetchOutcome)
    (hdet : ∀ i k, env.remote i k = det k) (userId : String) :
    ∀ (urls : List FitbitUrl) (st₁ st₂ : QState) (d : FitbitData),
      CacheGood env det st₁.cache → CacheGood env det st₂.cache →
      (noneLoop env userId urls st₂ d).2 = (noneLoop env userId urls st₁ d).2 ∧
      CacheGood env det (noneLoop env userId urls st₁ d).1.cache ∧
      CacheGood env det (noneLoop env userId urls st₂ d).1.cache := by
  intro urls
  induction urls with
  | nil =>
    intro st₁ st₂ d hg₁ hg₂
    exact ⟨rfl, hg₁, hg₂⟩
  | cons u rest ih =>
    intro st₁ st₂ d hg₁ hg₂
    by_cases hid : userId = ""
    · unfold noneLoop
      simp only [if_pos hid]
      exact ⟨trivial, hg₁, hg₂⟩
    · unfold noneLoop
      simp only [if_neg hid]
      obtain ⟨hres₁, hgood₁, -, -, -⟩ := fq_det env det hdet st₁ u.name none
        (formatPath u.url userId "" "") (some env.now) hg₁
      obtain ⟨hres₂, hgood₂, -, -, -⟩ := fq_det env det hdet st₂ u.name none
        (formatPath u.url userId "" "") (some env.now) hg₂
      rcases hq₁ : fitbit_query env st₁ u.name none (formatPath u.url userId "" "")
        (some env.now) with ⟨st₁x, r₁⟩
      rcases hq₂ : fitbit_query env st₂ u.name none (formatPath u.url userId "" "")
        (some env.now) with ⟨st₂x, r₂⟩
      rw [hq₁] at hres₁ hgood₁
      rw [hq₂] at hres₂ hgood₂
      have h₁ : r₁ = pureOutcome det (dataKeyOf env (formatPath u.url userId "" "")) := hres₁
      have h₂ : r₂ = pureOutcome det (dataKeyOf env (formatPath u.url userId "" "")) := hres₂
      have hg₁x : CacheGood env det st₁x.cache := hgood₁
      have hg₂x : CacheGood env det st₂x.cache := hgood₂
      rcases r₁ with q | e
      · have hr₂ : r₂ = .ok q := h₂.trans h₁.symm
        subst hr₂
        exact ih st₁x st₂x { d with noneData := alistInsert d.noneData u.name q } hg₁x hg₂x
      · have hr₂ : r₂ = .err e := h₂.trans h₁.symm
        subst hr₂
        exact ⟨rfl, hg₁x, hg₂x⟩

theorem partLoop_par (env : Env) (det : String → FetchOutcome)
    (hdet : ∀ i k, env.remote i k = det k) (name : String) :
    ∀ (specs : List PartSpec) (st₁ st₂ : QState) (m : List (String × QueryResult)),
      CacheGood env det st₁.cache → CacheGood env det st₂.cache →
      (∀ dk, hasKey (partLoop env name specs st₁ m).1.cache dk → hasKey st₂.cache dk) →
      (partLoop env name specs st₂ m).2 = (partLoop env name specs st₁ m).2 ∧
      CacheGood env det (partLoop env name specs st₁ m).1.cache ∧
      CacheGood env det (partLoop env name specs st₂ m).1.cache ∧
      ∃ tail₂, (partLoop env name specs st₂ m).1.log = st₂.log ++ tail₂ ∧
        ((∃ mm, (partLoop env name specs st₁ m).2 = .ok mm) →
          ∀ e ∈ tail₂, e.remoteTried = true → ¬targetClosed env e.target) := by
  intro specs
  induction specs with
  | nil =>
    intro st₁ st₂ m hg₁ hg₂ HK
    exact ⟨rfl, hg₁, hg₂, [], by simp [partLoop],
      fun _ e he => absurd he (by simp)⟩
  | cons p rest ih =>
    intro st₁ st₂ m hg₁ hg₂ HK
    by_cases hpres : (alistLookup m p.key).isSome
    · have hred : partLoop env name (p :: rest) st₁ m = partLoop env name rest st₁ m := by
        rw [partLoop]
        rw [if_pos hpres]
      unfold partLoop
      simp only [if_pos hpres]
      exact ih st₁ st₂ m hg₁ hg₂ (fun dk h => HK dk (by rw [hred]; exact h))
    · obtain ⟨hres₁, hgood₁, hext₁, -, hckey₁⟩ := fq_det env det hdet st₁ name
        (some p.key) p.path (some p.target) hg₁
      obtain ⟨hres₂, hgood₂, hext₂, hlog₂, -⟩ := fq_det env det hdet st₂ name
        (some p.key) p.path (some p.target) hg₂
      unfold partLoop
      simp only [if_neg hpres]
      rcases hq₁ : fitbit_query env st₁ name (some p.key) p.path (some p.target)
        with ⟨st₁x, r₁⟩
      rcases hq₂ : fitbit_query env st₂ name (some p.key) p.path (some p.target)
        with ⟨st₂x, r₂⟩
      rw [hq₁] at hres₁ hgood₁ hext₁ hckey₁
      rw [hq₂] at hres₂ hgood₂ hext₂ hlog₂
      have h₁ : r₁ = pureOutcome det (dataKeyOf env p.path) := hres₁
      have h₂ : r₂ = pureOutcome det (dataKeyOf env p.path) := hres₂
      have hg₁x : CacheGood env det st₁x.cache := hgood₁
      have hg₂x : CacheGood env det st₂x.cache := hgood₂
      obtain ⟨ext₂, hext₂'⟩ := hext₂
      have hext₂x : st₂x.cache = st₂.cache ++ ext₂ := hext₂'
      obtain ⟨b₂, hlog₂x, hb₂⟩ := hlog₂
      have hlog₂y : st₂x.log = st₂.log ++ [⟨name, some p.key, some p.target, b₂⟩] := hlog₂x
      rcases r₁ with q | e
      · have hr₂ : r₂ = .ok q := h₂.trans h₁.symm
        subst hr₂
        have hred : partLoop env name (p :: rest) st₁ m =
            partLoop env name rest st₁x (alistInsert m p.key q) := by
          rw [partLoop]
          rw [if_neg hpres]
          rw [hq₁]
        have HK' : ∀ dk,
            hasKey (partLoop env name rest st₁x (alistInsert m p.key q)).1.cache dk →
              hasKey st₂x.cache dk := by
          intro dk h
          have h2 : hasKey (partLoop env name (p :: rest) st₁ m).1.cache dk := by
            rw [hred]
            exact h
          rw [hext₂x]
          exact hasKey_mono _ _ _ (HK dk h2)
        obtain ⟨heq, hgA, hgB, tail₂', hlogr, hcond⟩ :=
          ih st₁x st₂x (alistInsert m p.key q) hg₁x hg₂x HK'
        refine ⟨heq, hgA, hgB, ⟨name, some p.key, some p.target, b₂⟩ :: tail₂', ?_, ?_⟩
        · show (partLoop env name rest st₂x (alistInsert m p.key q)).1.log =
            st₂.log ++ (⟨name, some p.key, some p.target, b₂⟩ :: tail₂')
          rw [hlogr, hlog₂y]
          simp
        · intro hok e he
          have hok' : ∃ mm,
              (partLoop env name rest st₁x (alistInsert m p.key q)).2 = .ok mm := hok
          rcases List.mem_cons.mp he with rfl | he'
          · intro hbt hcl
            have hbt' : b₂ = true := hbt
            have hcl' : targetClosed env (some p.target) := hcl
            have hk1 : hasKey st₁x.cache (dataKeyOf env p.path) :=
              hckey₁ hcl' q h₁.symm
            obtain ⟨extR, tailR, hcR, -, -, -⟩ :=
              partLoop_shape env name rest st₁x (alistInsert m p.key q)
            have hk2 : hasKey
                (partLoop env name rest st₁x (alistInsert m p.key q)).1.cache
                (dataKeyOf env p.path) := by
              rw [hcR]
              exact hasKey_mono _ _ _ hk1
            have hk3 : hasKey st₂.cache (dataKeyOf env p.path) :=
              HK _ (by rw [hred]; exact hk2)
            exact absurd ⟨hcl', hk3⟩ (hb₂ hbt')
          · exact hcond hok' e he'
      · have hr₂ : r₂ = .err e := h₂.trans h₁.symm
        subst hr₂
        refine ⟨rfl, hg₁x, hg₂x, [⟨name, some p.key, some p.target, b₂⟩], ?_, ?_⟩
        · show st₂x.log = st₂.log ++ [⟨name, some p.key, some p.target, b₂⟩]
          exact hlog₂y
        · rintro ⟨mm, hmm⟩
          have hmm' : (PyResult.err e : PyResult (List (String × QueryResult))) =
              .ok mm := hmm
          exact absurd hmm' (by simp)

theorem calUrlsLoop_par (env : Env) (det : String → FetchOutcome)
    (hdet : ∀ i k, env.remote i k = det k) (specsOf : FitbitUrl → List PartSpec) :
    ∀ (urls : List FitbitUrl) (st₁ st₂ : QState) (d : FitbitData),
      CacheGood env det st₁.cache → CacheGood env det st₂.cache →
      (∀ dk, hasKey (calUrlsLoop env specsOf urls st₁ d).1.cache dk →
        hasKey st₂.cache dk) →
      (calUrlsLoop env specsOf urls st₂ d).2 =
        (calUrlsLoop env specsOf urls st₁ d).2 ∧
      CacheGood env det (calUrlsLoop env specsOf urls st₁ d).1.cache ∧
      CacheGood env det (calUrlsLoop env specsOf urls st₂ d).1.cache ∧
      ∃ tail₂, (calUrlsLoop env specsOf urls st₂ d).1.log = st₂.log ++ tail₂ ∧
        ((∃ dd, (calUrlsLoop env specsOf urls st₁ d).2 = .ok dd) →
          ∀ e ∈ tail₂, e.remoteTried = true → ¬targetClosed env e.target) := by
  intro urls
  induction urls with
  | nil =>
    intro st₁ st₂ d hg₁ hg₂ HK
    exact ⟨rfl, hg₁, hg₂, [], by simp [calUrlsLoop],
      fun _ e he => absurd he (by simp)⟩
  | cons u rest ih =>
    intro st₁ st₂ d hg₁ hg₂ HK
    unfold calUrlsLoop
    rcases hp₁ : partLoop env u.name (specsOf u) st₁ (d.getRes u.name) with ⟨st₁x, r₁⟩
    rcases hp₂ : partLoop env u.name (specsOf u) st₂ (d.getRes u.name) with ⟨st₂x, r₂⟩
    have hKp : ∀ dk,
        hasKey (partLoop env u.name (specsOf u) st₁ (d.getRes u.name)).1.cache dk →
          hasKey st₂.cache dk := by
      intro dk h
      rw [hp₁] at h
      have h' : hasKey st₁x.cache dk := h
      apply HK
      have hred : calUrlsLoop env specsOf (u :: rest) st₁ d =
          match (st₁x, r₁) with
          | (st', .ok m) => calUrlsLoop env specsOf rest st' (d.setRes u.name m)
          | (st', .err e) => (st', .err e) := by
        rw [calUrlsLoop, hp₁]
      rw [hred]
      rcases r₁ with m | e
      · show hasKey (calUrlsLoop env specsOf rest st₁x (d.setRes u.name m)).1.cache dk
        obtain ⟨extL, tailL, hcL, -, -, -, -⟩ :=
          calUrlsLoop_shape env specsOf rest st₁x (d.setRes u.name m)
        rw [hcL]
        exact hasKey_mono _ _ _ h'
      · show hasKey st₁x.cache dk
        exact h'
    obtain ⟨heq, hgA, hgB, tailP₂, hlogP, hcondP⟩ :=
      partLoop_par env det hdet u.name (specsOf u) st₁ st₂ (d.getRes u.name)
        hg₁ hg₂ hKp
    rw [hp₁] at hgA hcondP heq
    rw [hp₂] at hgB hlogP heq
    have heqr : r₂ = r₁ := heq
    have hgAx : CacheGood env det st₁x.cache := hgA
    have hgBx : CacheGood env det st₂x.cache := hgB
    have hlogPx : st₂x.log = st₂.log ++ tailP₂ := hlogP
    have hcondPx : (∃ mm, r₁ = .ok mm) →
        ∀ e ∈ tailP₂, e.remoteTried = true → ¬targetClosed env e.target := hcondP
    rcases r₁ with m | e
    · subst heqr
      have HK2 : ∀ dk,
          hasKey (calUrlsLoop env specsOf rest st₁x (d.setRes u.name m)).1.cache dk →
            hasKey st₂x.cache dk := by
        intro dk h
        have hred2 : calUrlsLoop env specsOf (u :: rest) st₁ d =
            calUrlsLoop env specsOf rest st₁x (d.setRes u.name m) := by
          rw [calUrlsLoop, hp₁]
        have h2 : hasKey (calUrlsLoop env specsOf (u :: rest) st₁ d).1.cache dk := by
          rw [hred2]
          exact h
        obtain ⟨extP2, tailP2b, hcP2, -, -, -⟩ :=
          partLoop_shape env u.name (specsOf u) st₂ (d.getRes u.name)
        rw [hp₂] at hcP2
        have hcP2x : st₂x.cache = st₂.cache ++ extP2 := hcP2
        rw [hcP2x]
        exact hasKey_mono _ _ _ (HK dk h2)
      obtain ⟨heqR, hgAr, hgBr, tailR₂, hlogR, hcondR⟩ :=
        ih st₁x st₂x (d.setRes u.name m) hgAx hgBx HK2
      refine ⟨heqR, hgAr, hgBr, tailP₂ ++ tailR₂, ?_, ?_⟩
      · show (calUrlsLoop env specsOf rest st₂x (d.setRes u.name m)).1.log =
          st₂.log ++ (tailP₂ ++ tailR₂)
        rw [hlogR, hlogPx, List.append_assoc]
      · intro hok e he
        have hok' : ∃ dd,
            (calUrlsLoop env specsOf rest st₁x (d.setRes u.name m)).2 = .ok dd := hok
        rcases List.mem_append.mp he with h1 | h2
        · exact hcondPx ⟨m, rfl⟩ e h1
        · exact hcondR hok' e h2
    · subst heqr
      refine ⟨rfl, hgAx, hgBx, tailP₂, ?_, ?_⟩
      · show st₂x.log = st₂.log ++ tailP₂
        exact hlogPx
      · rintro ⟨dd, hdd⟩
        have hdd' : (PyResult.err e : PyResult FitbitData) = .ok dd := hdd
        exact absurd hdd' (by simp)

theorem gfd_rest_par (env : Env) (det : String → FetchOutcome)
    (hdet : ∀ i k, env.remote i k = det k) (userId : String) (startDate : DateTime)
    (st₁ st₂ : QState) (fd2 : FitbitData)
    (hg₁ : CacheGood env det st₁.cache) (hg₂ : CacheGood env det st₂.cache)
    (HK : ∀ dk, hasKey (gfd_rest env userId startDate st₁ fd2).1.cache dk →
      hasKey st₂.cache dk) :
    (gfd_rest env userId startDate st₂ fd2).2 =
      (gfd_rest env userId startDate st₁ fd2).2 ∧
    ∃ tail₂, (gfd_rest env userId startDate st₂ fd2).1.log = st₂.log ++ tail₂ ∧
      ((∃ dd, (gfd_rest env userId startDate st₁ fd2).2 = .ok dd) →
        ∀ e ∈ tail₂, e.remoteTried = true → ¬targetClosed env e.target) := by
  obtain ⟨heqN, hgN₁, hgN₂⟩ := noneLoop_par env det hdet userId
    (fitbit_urls.filter (fun x => x.period == .noGran)) st₁ st₂ fd2 hg₁ hg₂
  obtain ⟨extN₂, tailN₂, hcN₂, hlN₂, htailN₂, -⟩ := noneLoop_shape env userId
    (fitbit_urls.filter (fun x => x.period == .noGran)) st₂ fd2
  have htailN₂' : ∀ e ∈ tailN₂, e.remoteTried = true → ¬targetClosed env e.target := by
    intro e he h3
    rw [(htailN₂ e he).2]
    exact targetClosed_now env
  unfold gfd_rest
  rcases hN₁ : noneLoop env userId (fitbit_urls.filter (fun x => x.period == .noGran))
    st₁ fd2 with ⟨st₁b, rN₁⟩
  rcases hN₂ : noneLoop env userId (fitbit_urls.filter (fun x => x.period == .noGran))
    st₂ fd2 with ⟨st₂b, rN₂⟩
  rw [hN₁] at heqN hgN₁
  rw [hN₂] at heqN hgN₂ hcN₂ hlN₂
  have heqNr : rN₂ = rN₁ := heqN
  have hgN₁x : CacheGood env det st₁b.cache := hgN₁
  have hgN₂x : CacheGood env det st₂b.cache := hgN₂
  have hcN₂x : st₂b.cache = st₂.cache ++ extN₂ := hcN₂
  have hlN₂x : st₂b.log = st₂.log ++ tailN₂ := hlN₂
  rcases rN₁ with fd3 | eN
  · subst heqNr
    dsimp only
    have HKy : ∀ dk, hasKey
        (calUrlsLoop env (fun u => yearSpecs env userId u startDate)
          (fitbit_urls.filter (fun x => x.period == .year)) st₁b fd3).1.cache dk →
        hasKey st₂b.cache dk := by
      intro dk h
      have hfull : hasKey (gfd_rest env userId startDate st₁ fd2).1.cache dk := by
        have hredG : gfd_rest env userId startDate st₁ fd2 =
            match calUrlsLoop env (fun u => yearSpecs env userId u startDate)
              (fitbit_urls.filter (fun x => x.period == .year)) st₁b fd3 with
            | (st3, .err e) => (st3, .err e)
            | (st3, .ok fd4) =>
              calUrlsLoop env (fun u => monthSpecs env userId u startDate)
                (fitbit_urls.filter (fun x => x.period == .month)) st3 fd4 := by
          unfold gfd_rest
          rw [hN₁]
        rw [hredG]
        rcases hY : calUrlsLoop env (fun u => yearSpecs env userId u startDate)
            (fitbit_urls.filter (fun x => x.period == .year)) st₁b fd3 with ⟨st₁c, rY⟩
        rw [hY] at h
        have hx : hasKey st₁c.cache dk := h
        rcases rY with fd4 | eY
        · show hasKey (calUrlsLoop env (fun u => monthSpecs env userId u startDate)
            (fitbit_urls.filter (fun x => x.period == .month)) st₁c fd4).1.cache dk
          obtain ⟨extL, tailL, hcL, -, -, -, -⟩ :=
            calUrlsLoop_shape env (fun u => monthSpecs env userId u startDate)
              (fitbit_urls.filter (fun x => x.period == .month)) st₁c fd4
          rw [hcL]
          exact hasKey_mono _ _ _ hx
        · show hasKey st₁c.cache dk
          exact hx
      rw [hcN₂x]
      exact hasKey_mono _ _ _ (HK dk hfull)
    obtain ⟨heqY, hgY₁, hgY₂, tailY₂, hlogY₂, hcondY₂⟩ :=
      calUrlsLoop_par env det hdet (fun u => yearSpecs env userId u startDate)
        (fitbit_urls.filter (fun x => x.period == .year)) st₁b st₂b fd3
        hgN₁x hgN₂x HKy
    obtain ⟨extY₂b, tailY₂b, hcY₂, -, -, -, -⟩ :=
      calUrlsLoop_shape env (fun u => yearSpecs env userId u startDate)
        (fitbit_urls.filter (fun x => x.period == .year)) st₂b fd3
    rcases hY₁ : calUrlsLoop env (fun u => yearSpecs env userId u startDate)
        (fitbit_urls.filter (fun x => x.period == .year)) st₁b fd3 with ⟨st₁c, rY₁⟩
    rcases hY₂ : calUrlsLoop env (fun u => yearSpecs env userId u startDate)
        (fitbit_urls.filter (fun x => x.period == .year)) st₂b fd3 with ⟨st₂c, rY₂⟩
    rw [hY₁] at heqY hgY₁ hcondY₂
    rw [hY₂] at heqY hgY₂ hlogY₂ hcY₂
    have heqYr : rY₂ = rY₁ := heqY
    have hgY₁x : CacheGood env det st₁c.cache := hgY₁
    have hgY₂x : CacheGood env det st₂c.cache := hgY₂
    have hlogY₂x : st₂c.log = st₂b.log ++ tailY₂ := hlogY₂
    have hcY₂x : st₂c.cache = st₂b.cache ++ extY₂b := hcY₂
    rcases rY₁ with fd4 | eY
    · subst heqYr
      dsimp only
      have hcondY₂x : ∀ e ∈ tailY₂, e.remoteTried = true → ¬targetClosed env e.target :=
        hcondY₂ ⟨fd4, rfl⟩
      have HKm : ∀ dk, hasKey
          (calUrlsLoop env (fun u => monthSpecs env userId u startDate)
            (fitbit_urls.filter (fun x => x.period == .month)) st₁c fd4).1.cache dk →
          hasKey st₂c.cache dk := by
        intro dk h
        have hredG2 : gfd_rest env userId startDate st₁ fd2 =
            calUrlsLoop env (fun u => monthSpecs env userId u startDate)
              (fitbit_urls.filter (fun x => x.period == .month)) st₁c fd4 := by
          unfold gfd_rest
          rw [hN₁]
          show (match calUrlsLoop env (fun u => yearSpecs env userId u startDate)
              (fitbit_urls.filter (fun x => x.period == .year)) st₁b fd3 with
            | (st3, .err e) => (st3, .err e)
            | (st3, .ok fd4) =>
              calUrlsLoop env (fun u => monthSpecs env userId u startDate)
                (fitbit_urls.filter (fun x => x.period == .month)) st3 fd4) =
            calUrlsLoop env (fun u => monthSpecs env userId u startDate)
              (fitbit_urls.filter (fun x => x.period == .month)) st₁c fd4
          rw [hY₁]
        have h2 := HK dk (by rw [hredG2]; exact h)
        rw [hcY₂x, hcN₂x, List.append_assoc]
        exact hasKey_mono _ _ _ h2
      obtain ⟨heqM, hgM₁, hgM₂, tailM₂, hlogM₂, hcondM₂⟩ :=
        calUrlsLoop_par env det hdet (fun u => monthSpecs env userId u startDate)
          (fitbit_urls.filter (fun x => x.period == .month)) st₁c st₂c fd4
          hgY₁x hgY₂x HKm
      rcases hM₁ : calUrlsLoop env (fun u => monthSpecs env userId u startDate)
          (fitbit_urls.filter (fun x => x.period == .month)) st₁c fd4 with ⟨st₁d, rM₁⟩
      rcases hM₂ : calUrlsLoop env (fun u => monthSpecs env userId u startDate)
          (fitbit_urls.filter (fun x => x.period == .month)) st₂c fd4 with ⟨st₂d, rM₂⟩
      rw [hM₁] at heqM hcondM₂
      rw [hM₂] at heqM hlogM₂
      have heqMr : rM₂ = rM₁ := heqM
      have hlogM₂x : st₂d.log = st₂c.log ++ tailM₂ := hlogM₂
      have hcondM₂x : (∃ mm, rM₁ = .ok mm) →
          ∀ e ∈ tailM₂, e.remoteTried = true → ¬targetClosed env e.target := hcondM₂
      refine ⟨heqMr, tailN₂ ++ (tailY₂ ++ tailM₂), ?_, ?_⟩
      · show st₂d.log = st₂.log ++ (tailN₂ ++ (tailY₂ ++ tailM₂))
        rw [hlogM₂x, hlogY₂x, hlN₂x]
        simp [List.append_assoc]
      · rintro ⟨dd, hdd⟩ e he
        have hddx : rM₁ = .ok dd := hdd
        rcases List.mem_append.mp he with h1 | h2
        · exact htailN₂' e h1
        · rcases List.mem_append.mp h2 with h3 | h4
          · exact hcondY₂x e h3
          · exact hcondM₂x ⟨dd, hddx⟩ e h4
    · subst heqYr
      refine ⟨rfl, tailN₂ ++ tailY₂, ?_, ?_⟩
      · show st₂c.log = st₂.log ++ (tailN₂ ++ tailY₂)
        rw [hlogY₂x, hlN₂x]
        simp [List.append_assoc]
      · rintro ⟨dd, hdd⟩
        have hdd' : (PyResult.err eY : PyResult FitbitData) = .ok dd := hdd
        exact absurd hdd' (by simp)
  · subst heqNr
    refine ⟨rfl, tailN₂, ?_, ?_⟩
    · show st₂b.log = st₂.log ++ tailN₂
      exact hlN₂x
    · rintro ⟨dd, hdd⟩
      have hdd' : (PyResult.err eN : PyResult FitbitData) = .ok dd := hdd
      exact absurd hdd' (by simp)

theorem gfd_tail_aux (env : Env) (det : String → FetchOutcome)
    (hdet : ∀ i k, env.remote i k = det k) (userId : String) (startDate : DateTime)
    (st₁a st₂a : QState) (fd2 : FitbitData)
    (hg₁a : CacheGood env det st₁a.cache) (hg₂a : CacheGood env det st₂a.cache)
    (HKa : ∀ dk, hasKey (gfd_rest env userId startDate st₁a fd2).1.cache dk →
      hasKey st₂a.cache dk)
    (st₂ : QState) (b₂ : Bool)
    (hlog₂a : st₂a.log = st₂.log ++ [⟨"profile", none, none, b₂⟩]) :
    (gfd_rest env userId startDate st₂a fd2).2 =
      (gfd_rest env userId startDate st₁a fd2).2 ∧
    ∃ tail₂, (gfd_rest env userId startDate st₂a fd2).1.log = st₂.log ++ tail₂ ∧
      ((∃ dd, (gfd_rest env userId startDate st₁a fd2).2 = .ok dd) →
        ∀ e ∈ tail₂, e.remoteTried = true → ¬targetClosed env e.target) := by
  obtain ⟨heq, tail₂, hlog, hcond⟩ :=
    gfd_rest_par env det hdet userId startDate st₁a st₂a fd2 hg₁a hg₂a HKa
  refine ⟨heq, ⟨"profile", none, none, b₂⟩ :: tail₂, ?_, ?_⟩
  · rw [hlog, hlog₂a]
    simp
  · intro hok e he
    rcases List.mem_cons.mp he with rfl | he'
    · intro hb
      rintro ⟨td, htd, -⟩
      exact Option.noConfusion htd
    · exact hcond hok e he'

theorem gfd_par (env : Env) (det : String → FetchOutcome)
    (hdet : ∀ i k, env.remote i k = det k)
    (st₁ st₂ : QState) (prior : FitbitData)
    (hg₁ : CacheGood env det st₁.cache) (hg₂ : CacheGood env det st₂.cache)
    (HK : ∀ dk, hasKey (get_fitbit_data env st₁ prior).1.cache dk →
      hasKey st₂.cache dk) :
    (get_fitbit_data env st₂ prior).2 = (get_fitbit_data env st₁ prior).2 ∧
    ∃ tail₂, (get_fitbit_data env st₂ prior).1.log = st₂.log ++ tail₂ ∧
      ((∃ dd, (get_fitbit_data env st₁ prior).2 = .ok dd) →
        ∀ e ∈ tail₂, e.remoteTried = true → ¬targetClosed env e.target) := by
  obtain ⟨hres₁, hgood₁, hext₁, hlog₁, -⟩ := fq_det env det hdet st₁ "profile" none
    "/-/profile.json" none hg₁
  obtain ⟨hres₂, hgood₂, hext₂, hlog₂, -⟩ := fq_det env det hdet st₂ "profile" none
    "/-/profile.json" none hg₂
  unfold get_fitbit_data
  rcases hq₁ : fitbit_query env st₁ "profile" none "/-/profile.json" none with ⟨st₁a, r₁⟩
  rcases hq₂ : fitbit_query env st₂ "profile" none "/-/profile.json" none with ⟨st₂a, r₂⟩
  rw [hq₁] at hres₁ hgood₁ hext₁ hlog₁
  rw [hq₂] at hres₂ hgood₂ hext₂ hlog₂
  have h₁ : r₁ = pureOutcome det (dataKeyOf env "/-/profile.json") := hres₁
  have h₂ : r₂ = pureOutcome det (dataKeyOf env "/-/profile.json") := hres₂
  have hg₁a : CacheGood env det st₁a.cache := hgood₁
  have hg₂a : CacheGood env det st₂a.cache := hgood₂
  obtain ⟨ext₂, hext₂'⟩ := hext₂
  have hext₂a : st₂a.cache = st₂.cache ++ ext₂ := hext₂'
  obtain ⟨b₂, hlog₂x, -⟩ := hlog₂
  have hlog₂a : st₂a.log = st₂.log ++ [⟨"profile", none, none, b₂⟩] := hlog₂x
  rcases r₁ with q | e
  · have hr₂ : r₂ = .ok q := h₂.trans h₁.symm
    subst hr₂
    dsimp only
    rcases hqu : q.user with _ | usr
    · refine ⟨rfl, [⟨"profile", none, none, b₂⟩], ?_, ?_⟩
      · show st₂a.log = st₂.log ++ [⟨"profile", none, none, b₂⟩]
        exact hlog₂a
      · rintro ⟨dd, hdd⟩
        have hdd' : (PyResult.err PyError.keyError : PyResult FitbitData) = .ok dd := hdd
        exact absurd hdd' (by simp)
    · rcases hpp : prior.profile with _ | p
      · have hredF : get_fitbit_data env st₁ prior =
            gfd_rest env usr.encodedId usr.memberSince st₁a
              ⟨some (profileOf usr), prior.resData, prior.noneData⟩ := by
          unfold get_fitbit_data
          rw [hq₁]
          simp only [hqu, hpp]
        have HKa : ∀ dk, hasKey (gfd_rest env usr.encodedId usr.memberSince st₁a
            ⟨some (profileOf usr), prior.resData, prior.noneData⟩).1.cache dk →
            hasKey st₂a.cache dk := by
          intro dk h
          rw [hext₂a]
          exact hasKey_mono _ _ _ (HK dk (by rw [hredF]; exact h))
        exact gfd_tail_aux env det hdet usr.encodedId usr.memberSince st₁a st₂a
          ⟨some (profileOf usr), prior.resData, prior.noneData⟩ hg₁a hg₂a HKa st₂ b₂ hlog₂a
      · by_cases hne : p.encodedId ≠ usr.encodedId
        · have hredF : get_fitbit_data env st₁ prior =
              gfd_rest env usr.encodedId usr.memberSince st₁a
                ⟨some (profileOf usr), emptyFitbitData.resData, emptyFitbitData.noneData⟩ := by
            unfold get_fitbit_data
            rw [hq₁]
            simp only [hqu, hpp]
            rw [if_pos hne]
          have HKa : ∀ dk, hasKey (gfd_rest env usr.encodedId usr.memberSince st₁a
              ⟨some (profileOf usr), emptyFitbitData.resData,
                emptyFitbitData.noneData⟩).1.cache dk →
              hasKey st₂a.cache dk := by
            intro dk h
            rw [hext₂a]
            exact hasKey_mono _ _ _ (HK dk (by rw [hredF]; exact h))
          simp only [if_pos hne]
          exact gfd_tail_aux env det hdet usr.encodedId usr.memberSince st₁a st₂a
            ⟨some (profileOf usr), emptyFitbitData.resData, emptyFitbitData.noneData⟩
            hg₁a hg₂a HKa st₂ b₂ hlog₂a
        · have hredF : get_fitbit_data env st₁ prior =
              gfd_rest env usr.encodedId usr.memberSince st₁a
                ⟨some (profileOf usr), prior.resData, prior.noneData⟩ := by
            unfold get_fitbit_data
            rw [hq₁]
            simp only [hqu, hpp]
            rw [if_neg hne]
          have HKa : ∀ dk, hasKey (gfd_rest env usr.encodedId usr.memberSince st₁a
              ⟨some (profileOf usr), prior.resData, prior.noneData⟩).1.cache dk →
              hasKey st₂a.cache dk := by
            intro dk h
            rw [hext₂a]
            exact hasKey_mono _ _ _ (HK dk (by rw [hredF]; exact h))
          simp only [if_neg hne]
          exact gfd_tail_aux env det hdet usr.encodedId usr.memberSince st₁a st₂a
            ⟨some (profileOf usr), prior.resData, prior.noneData⟩ hg₁a hg₂a HKa st₂ b₂ hlog₂a
  · have hr₂ : r₂ = .err e := h₂.trans h₁.symm
    subst hr₂
    dsimp only
    refine ⟨rfl, [⟨"profile", none, none, b₂⟩], ?_, ?_⟩
    · show st₂a.log = st₂.log ++ [⟨"profile", none, none, b₂⟩]
      exact hlog₂a
    · rintro ⟨dd, hdd⟩
      have hdd' : (PyResult.err e : PyResult FitbitData) = .ok dd := hdd
      exact absurd hdd' (by simp)

theorem partLoop_good (env : Env) (det : String → FetchOutcome)
    (hdet : ∀ i k, env.remote i k = det k) (name : String) :
    ∀ (specs : List PartSpec) (st : QState) (m : List (String × QueryResult)),
      CacheGood env det st.cache →
      CacheGood env det (partLoop env name specs st m).1.cache := by
  intro specs
  induction specs with
  | nil =>
    intro st m hg
    exact hg
  | cons p rest ih =>
    intro st m hg
    unfold partLoop
    by_cases hpres : (alistLookup m p.key).isSome
    · simp only [if_pos hpres]
      exact ih st m hg
    · simp only [if_neg hpres]
      obtain ⟨-, hgood, -, -, -⟩ := fq_det env det hdet st name (some p.key) p.path
        (some p.target) hg
      rcases hq : fitbit_query env st name (some p.key) p.path (some p.target)
        with ⟨st', r⟩
      rw [hq] at hgood
      have hg' : CacheGood env det st'.cache := hgood
      rcases r with q | e
      · exact ih st' (alistInsert m p.key q) hg'
      · exact hg'

theorem noneLoop_good (env : Env) (det : String → FetchOutcome)
    (hdet : ∀ i k, env.remote i k = det k) (userId : String) :
    ∀ (urls : List FitbitUrl) (st : QState) (d : FitbitData),
      CacheGood env det st.cache →
      CacheGood env det (noneLoop env userId urls st d).1.cache := by
  intro urls
  induction urls with
  | nil =>
    intro st d hg
    exact hg
  | cons u rest ih =>
    intro st d hg
    unfold noneLoop
    by_cases hid : userId = ""
    · simp only [if_pos hid]
      exact hg
    · simp only [if_neg hid]
      obtain ⟨-, hgood, -, -, -⟩ := fq_det env det hdet st u.name none
        (formatPath u.url userId "" "") (some env.now) hg
      rcases hq : fitbit_query env st u.name none (formatPath u.url userId "" "")
        (some env.now) with ⟨st', r⟩
      rw [hq] at hgood
      have hg' : CacheGood env det st'.cache := hgood
      rcases r with q | e
      · exact ih st' { d with noneData := alistInsert d.noneData u.name q } hg'
      · exact hg'

theorem calUrlsLoop_good (env : Env) (det : String → FetchOutcome)
    (hdet : ∀ i k, env.remote i k = det k) (specsOf : FitbitUrl → List PartSpec) :
    ∀ (urls : List FitbitUrl) (st : QState) (d : FitbitData),
      CacheGood env det st.cache →
      CacheGood env det (calUrlsLoop env specsOf urls st d).1.cache := by
  intro urls
  induction urls with
  | nil =>
    intro st d hg
    exact hg
  | cons u rest ih =>
    intro st d hg
    unfold calUrlsLoop
    rcases hp : partLoop env u.name (specsOf u) st (d.getRes u.name) with ⟨st', r⟩
    have hg' : CacheGood env det st'.cache := by
      have h2 := partLoop_good env det hdet u.name (specsOf u) st (d.getRes u.name) hg
      rw [hp] at h2
      exact h2
    rcases r with m | e
    · exact ih st' (d.setRes u.name m) hg'
    · exact hg'

theorem gfd_rest_good (env : Env) (det : String → FetchOutcome)
    (hdet : ∀ i k, env.remote i k = det k) (userId : String) (startDate : DateTime)
    (st : QState) (fd2 : FitbitData) (hg : CacheGood env det st.cache) :
    CacheGood env det (gfd_rest env userId startDate st fd2).1.cache := by
  unfold gfd_rest
  rcases hN : noneLoop env userId (fitbit_urls.filter (fun x => x.period == .noGran))
    st fd2 with ⟨st2, rN⟩
  have hg2 : CacheGood env det st2.cache := by
    have h2 := noneLoop_good env det hdet userId
      (fitbit_urls.filter (fun x => x.period == .noGran)) st fd2 hg
    rw [hN] at h2
    exact h2
  rcases rN with fd3 | e
  · dsimp only
    rcases hY : calUrlsLoop env (fun u => yearSpecs env userId u startDate)
        (fitbit_urls.filter (fun x => x.period == .year)) st2 fd3 with ⟨st3, rY⟩
    have hg3 : CacheGood env det st3.cache := by
      have h2 := calUrlsLoop_good env det hdet (fun u => yearSpecs env userId u startDate)
        (fitbit_urls.filter (fun x => x.period == .year)) st2 fd3 hg2
      rw [hY] at h2
      exact h2
    rcases rY with fd4 | e
    · dsimp only
      exact calUrlsLoop_good env det hdet (fun u => monthSpecs env userId u startDate)
        (fitbit_urls.filter (fun x => x.period == .month)) st3 fd4 hg3
    · dsimp only
      exact hg3
  · dsimp only
    exact hg2

theorem gfd_good (env : Env) (det : String → FetchOutcome)
    (hdet : ∀ i k, env.remote i k = det k) (st : QState) (prior : FitbitData)
    (hg : CacheGood env det st.cache) :
    CacheGood env det (get_fitbit_data env st prior).1.cache := by
  unfold get_fitbit_data
  obtain ⟨-, hgood, -, -, -⟩ := fq_det env det hdet st "profile" none
    "/-/profile.json" none hg
  rcases hq : fitbit_query env st "profile" none "/-/profile.json" none with ⟨st1, r⟩
  rw [hq] at hgood
  have hg1 : CacheGood env det st1.cache := hgood
  rcases r with q | e
  · dsimp only
    rcases hqu : q.user with _ | usr
    · exact hg1
    · exact gfd_rest_good env det hdet usr.encodedId usr.memberSince st1 _ hg1
  · dsimp only
    exact hg1

/-- **C6**: Running the sync twice in immediate succession — a second
`get_fitbit_data` from the first run's final state, with the same prior
output, the same identity resolution (a deterministic remote) and no
elapsed time — produces the identical merged output, and no
previously-closed partition triggers a remote fetch on the second run:
every query the second run attempts remotely has a target date that is
absent or not yet closed per the cache trust rule. -/
theorem sync_idempotent (env : Env) (det : String → FetchOutcome)
    (hdet : ∀ i k, env.remote i k = det k)
    (st : QState) (prior : FitbitData) (out1 : FitbitData)
    (hg : CacheGood env det st.cache)
    (h1 : (get_fitbit_data env st prior).2 = .ok out1) :
    (get_fitbit_data env (get_fitbit_data env st prior).1 prior).2 = .ok out1 ∧
    ∀ e ∈ (get_fitbit_data env (get_fitbit_data env st prior).1 prior).1.log.drop
        (get_fitbit_data env st prior).1.log.length,
      e.remoteTried = true → ¬targetClosed env e.target := by
  have hg1 : CacheGood env det (get_fitbit_data env st prior).1.cache :=
    gfd_good env det hdet st prior hg
  obtain ⟨heq, tail₂, hlog, hcond⟩ :=
    gfd_par env det hdet st (get_fitbit_data env st prior).1 prior hg hg1
      (fun dk h => h)
  constructor
  · rw [heq, h1]
  · intro e he hb
    rw [hlog, List.drop_left] at he
    exact hcond ⟨out1, h1⟩ e he hb

def detC6 : String → FetchOutcome := fun _ => .resp 200 (some qrC5)

def envC6 : Env := ⟨nowW, "oh", fun _ k => detC6 k⟩

/-- The merged output of the first sync run in the C6 witness scenario. -/
def outC6 : FitbitData :=
  match (get_fitbit_data envC6 ⟨[], 0, []⟩ emptyFitbitData).2 with
  | .ok d => d
  | .err _ => emptyFitbitData

set_option maxHeartbeats 8000000 in
theorem sync_idempotent_witness :
    (get_fitbit_data envC6 (get_fitbit_data envC6 ⟨[], 0, []⟩ emptyFitbitData).1
      emptyFitbitData).2 = .ok outC6 :=
  (sync_idempotent envC6 detC6 (fun i k => rfl) ⟨[], 0, []⟩ emptyFitbitData outC6
    (fun c hc => absurd hc (by simp)) (by decide)).1
